import Mathlib

/-!
# Verification of the SML PDF graph-RAG pipeline

A shallow embedding of `extract_and_index.py` and `graph_rag.py`: the
content-addressed identity scheme (`make_id` over blake2s-8), the JSON
canonicalization it relies on, the regex-based money/vendor/total sniffers,
the fragment extraction adapters, the graph builder, and the retrieval
engine (`cids_for_entity`, `top_context`, `resolve_refs`, `ask`).

Python strings are modelled as `List Char` (Python slicing and iteration are
by code point, as is `List Char`); Python `float` money values, which in this
pipeline always arise from parsing decimal literals with at most two decimal
places, are modelled as `ℚ`; Python's `None` / exceptions become `Option`.
-/

namespace SML

/-! ## Python string primitives -/

/-- The whitespace characters stripped by Python's `str.strip()` (ASCII range,
which is all the pipeline's inputs exercise). -/
def pySpaceChars : List Char := [' ', '\t', '\n', '\r', '\x0b', '\x0c']

def isPySpace (c : Char) : Bool := pySpaceChars.contains c

/-- Python `str.strip()`. -/
def pyStrip (cs : List Char) : List Char :=
  ((cs.dropWhile isPySpace).reverse.dropWhile isPySpace).reverse

/-- Python `str.lower()` restricted to ASCII (all names in this pipeline). -/
def pyLower (cs : List Char) : List Char := cs.map Char.toLower

/-- Python `str.split(sep)` for a one-character separator. -/
def splitOnChar (sep : Char) : List Char → List (List Char)
  | [] => [[]]
  | c :: rest =>
    let r := splitOnChar sep rest
    if c = sep then [] :: r
    else
      match r with
      | h :: t => (c :: h) :: t
      | [] => [[c]]

/-- Python `sep.join(parts)`. -/
def joinWith (sep : List Char) : List (List Char) → List Char
  | [] => []
  | [p] => p
  | p :: ps => p ++ sep ++ joinWith sep ps

/-- Remove every occurrence of a character: Python `s.replace(c, "")`. -/
def removeChar (c : Char) (cs : List Char) : List Char := cs.filter (· ≠ c)

/-! ## UTF-8 encoding (Python `str.encode()`) -/

def utf8Char (c : Char) : List Nat :=
  let n := c.toNat
  if n < 128 then [n]
  else if n < 2048 then [192 + n / 64, 128 + n % 64]
  else if n < 65536 then [224 + n / 4096, 128 + (n / 64) % 64, 128 + n % 64]
  else [240 + n / 262144, 128 + (n / 4096) % 64, 128 + (n / 64) % 64, 128 + n % 64]

def utf8 (cs : List Char) : List Nat := cs.flatMap utf8Char

/-! ## blake2s with `digest_size=8` (RFC 7693), as used by `make_id` -/

def M32 : Nat := 4294967296

def add32 (a b : Nat) : Nat := (a + b) % M32

def xor32 (a b : Nat) : Nat := a.xor b

def rotr32 (x n : Nat) : Nat := (x / 2 ^ n + (x % 2 ^ n) * 2 ^ (32 - n)) % M32

def blakeIV : List Nat :=
  [0x6A09E667, 0xBB67AE85, 0x3C6EF372, 0xA54FF53A,
   0x510E527F, 0x9B05688C, 0x1F83D9AB, 0x5BE0CD19]

def sigmaTable : List (List Nat) :=
  [[0, 1, 2, 3, 4, 5, 6, 7, 8, 9, 10, 11, 12, 13, 14, 15],
   [14, 10, 4, 8, 9, 15, 13, 6, 1, 12, 0, 2, 11, 7, 5, 3],
   [11, 8, 12, 0, 5, 2, 15, 13, 10, 14, 3, 6, 7, 1, 9, 4],
   [7, 9, 3, 1, 13, 12, 11, 14, 2, 6, 5, 10, 4, 0, 15, 8],
   [9, 0, 5, 7, 2, 4, 10, 15, 14, 1, 11, 12, 6, 8, 3, 13],
   [2, 12, 6, 10, 0, 11, 8, 3, 4, 13, 7, 5, 15, 14, 1, 9],
   [12, 5, 1, 15, 14, 13, 4, 10, 0, 7, 6, 3, 9, 2, 8, 11],
   [13, 11, 7, 14, 12, 1, 3, 9, 5, 0, 15, 4, 8, 6, 2, 10],
   [6, 15, 14, 9, 11, 3, 0, 8, 12, 2, 13, 7, 1, 4, 10, 5],
   [10, 2, 8, 4, 7, 6, 1, 5, 15, 11, 9, 14, 3, 12, 13, 0]]

def gMix (v : List Nat) (a b c d x y : Nat) : List Nat :=
  let va := add32 (add32 (v.getD a 0) (v.getD b 0)) x
  let vd := rotr32 (xor32 (v.getD d 0) va) 16
  let vc := add32 (v.getD c 0) vd
  let vb := rotr32 (xor32 (v.getD b 0) vc) 12
  let va := add32 (add32 va vb) y
  let vd := rotr32 (xor32 vd va) 8
  let vc := add32 vc vd
  let vb := rotr32 (xor32 vb vc) 7
  (((v.set a va).set b vb).set c vc).set d vd

def blakeRound (m : List Nat) (v : List Nat) (s : List Nat) : List Nat :=
  let mi := fun i => m.getD (s.getD i 0) 0
  let v := gMix v 0 4 8 12 (mi 0) (mi 1)
  let v := gMix v 1 5 9 13 (mi 2) (mi 3)
  let v := gMix v 2 6 10 14 (mi 4) (mi 5)
  let v := gMix v 3 7 11 15 (mi 6) (mi 7)
  let v := gMix v 0 5 10 15 (mi 8) (mi 9)
  let v := gMix v 1 6 11 12 (mi 10) (mi 11)
  let v := gMix v 2 7 8 13 (mi 12) (mi 13)
  gMix v 3 4 9 14 (mi 14) (mi 15)

def blakeCompress (h : List Nat) (m : List Nat) (t : Nat) (final : Bool) : List Nat :=
  let v := h ++ blakeIV
  let v := v.set 12 (xor32 (v.getD 12 0) (t % M32))
  let v := v.set 13 (xor32 (v.getD 13 0) (t / M32 % M32))
  let v := if final then v.set 14 (xor32 (v.getD 14 0) 0xFFFFFFFF) else v
  let v := sigmaTable.foldl (fun w s => blakeRound m w s) v
  (List.range 8).map (fun i => xor32 (h.getD i 0) (xor32 (v.getD i 0) (v.getD (i + 8) 0)))

/-- Initial state for an unkeyed blake2s with an 8-byte digest:
`h0 ^= 0x01010000 ^ (kk << 8) ^ nn` with `kk = 0`, `nn = 8`. -/
def blakeInit : List Nat := blakeIV.set 0 (xor32 (blakeIV.getD 0 0) 0x01010008)

/-- Bytes of one (≤ 64-byte) block as 16 little-endian 32-bit words,
zero-padded. -/
def bytesToWords16 (block : List Nat) : List Nat :=
  (List.range 16).map fun j =>
    block.getD (4 * j) 0 + block.getD (4 * j + 1) 0 * 256 +
      block.getD (4 * j + 2) 0 * 65536 + block.getD (4 * j + 3) 0 * 16777216

/-- Split into 64-byte blocks.  The recursion is fuelled by the byte count so
that it is structural (each step consumes at least one byte, so the fuel
never runs out before the bytes do). -/
def chunks64Go : Nat → List Nat → List (List Nat)
  | _, [] => []
  | 0, _ => []
  | fuel + 1, bs => bs.take 64 :: chunks64Go fuel (bs.drop 64)

def chunks64 (bs : List Nat) : List (List Nat) := chunks64Go bs.length bs

def blakeBlocks (h : List Nat) (blocks : List (List Nat)) (count total : Nat) : List Nat :=
  match blocks with
  | [] => h
  | [b] => blakeCompress h (bytesToWords16 b) total true
  | b :: rest =>
      blakeBlocks (blakeCompress h (bytesToWords16 b) ((count + 1) * 64) false) rest (count + 1) total

def wordLE4 (w : Nat) : List Nat := [w % 256, w / 256 % 256, w / 65536 % 256, w / 16777216 % 256]

/-- `hashlib.blake2s(msg, digest_size=8).digest()`: the first 8 bytes of the
little-endian serialization of the final state. -/
def blake2s8 (msg : List Nat) : List Nat :=
  let blocks := if msg = [] then [[]] else chunks64 msg
  let h := blakeBlocks blakeInit blocks 0 msg.length
  wordLE4 (h.getD 0 0) ++ wordLE4 (h.getD 1 0)

def hexDigitChars : List Char := "0123456789abcdef".data

def hexChar (n : Nat) : Char := hexDigitChars.getD n '0'

def byteHex (b : Nat) : List Char := [hexChar (b / 16 % 16), hexChar (b % 16)]

/-- Python `.hexdigest()`. -/
def hexdigest (bs : List Nat) : List Char := bs.flatMap byteHex

/-! ## `json.dumps(..., ensure_ascii=False, sort_keys=True)` for the payload
shapes `make_id` receives (values are strings, ints, floats, `None`, or lists
of strings; dicts never nest). -/

inductive JVal where
  | jstr (s : List Char)
  | jnat (n : Nat)
  | jnull
  | jnum (q : ℚ)
  | jarr (xs : List (List Char))
deriving DecidableEq

def jsonEscChar (c : Char) : List Char :=
  if c = '"' then ['\\', '"']
  else if c = '\\' then ['\\', '\\']
  else if c = '\n' then ['\\', 'n']
  else if c = '\t' then ['\\', 't']
  else if c = '\r' then ['\\', 'r']
  else if c = '\x08' then ['\\', 'b']
  else if c = '\x0c' then ['\\', 'f']
  else if c.toNat < 32 then ['\\', 'u', '0', '0', hexChar (c.toNat / 16), hexChar (c.toNat % 16)]
  else [c]

def jsonStrLit (s : List Char) : List Char := '"' :: s.flatMap jsonEscChar ++ ['"']

/-- Serialization of a Python float as `repr` renders the values this pipeline
produces (decimal amounts with at most two fractional digits, which `repr`
prints in shortest decimal form, `n.0` for whole numbers). -/
def floatRepr (q : ℚ) : List Char :=
  let n := q.num.toNat
  let d := q.den
  let whole := n / d
  let cents := n % d * 100 / d
  let ws := (Nat.repr whole).data
  if cents = 0 then ws ++ ['.', '0']
  else if cents % 10 = 0 then ws ++ ['.'] ++ (Nat.repr (cents / 10)).data
  else if cents < 10 then ws ++ ['.', '0'] ++ (Nat.repr cents).data
  else ws ++ ['.'] ++ (Nat.repr cents).data

def dumpJVal : JVal → List Char
  | .jstr s => jsonStrLit s
  | .jnat n => (Nat.repr n).data
  | .jnull => ['n', 'u', 'l', 'l']
  | .jnum q => floatRepr q
  | .jarr xs => '[' :: joinWith [',', ' '] (xs.map jsonStrLit) ++ [']']

/-- Code-point order on strings, as Python's `sorted` uses for `sort_keys`. -/
def charListLt : List Char → List Char → Bool
  | [], [] => false
  | [], _ :: _ => true
  | _ :: _, [] => false
  | a :: as, b :: bs =>
    if a.toNat < b.toNat then true
    else if b.toNat < a.toNat then false
    else charListLt as bs

def insortPair (p : List Char × JVal) : List (List Char × JVal) → List (List Char × JVal)
  | [] => [p]
  | q :: qs => if charListLt p.1 q.1 then p :: q :: qs else q :: insortPair p qs

def sortPairs : List (List Char × JVal) → List (List Char × JVal)
  | [] => []
  | p :: ps => insortPair p (sortPairs ps)

def dumpsDict (d : List (List Char × JVal)) : List Char :=
  '\x7b' :: joinWith [',', ' ']
      ((sortPairs d).map fun p => jsonStrLit p.1 ++ [':', ' '] ++ dumpJVal p.2) ++ ['\x7d']

/-! ## `make_id` -/

/-- The `payload` argument of `make_id`: `dict | str`. -/
inductive Payload where
  | str (s : List Char)
  | dict (d : List (List Char × JVal))
deriving DecidableEq

/-- Canonicalization applied before hashing: dict payloads are serialized with
sorted keys and sliced to 2048 characters; string payloads pass through. -/
def canonPayload : Payload → List Char
  | .str s => s
  | .dict d => (dumpsDict d).take 2048

def make_id (kind : String) (payload : Payload) : String :=
  kind ++ ":" ++ String.mk (hexdigest (blake2s8 (utf8 (canonPayload payload))))

/-! ## Regex matchers

Each regex in the source is embedded as a backtracking matcher specialized to
that pattern.  A quantifier is rendered as the list of the remainders it can
leave, in the order Python's engine tries them (greedy: longest consumption
first); alternatives are composed with `flatMap`, so the head of the combined
candidate list is the match the engine returns.  `search` scans start
positions left to right and returns the first position with a match. -/

/-- Candidate remainders of `\$?` (greedy optional). -/
def optDollarCands (cs : List Char) : List (List Char) :=
  match cs with
  | [] => [[]]
  | c :: rest => if c = '$' then [rest, c :: rest] else [c :: rest]

/-- Candidate remainders of `\s*` (greedy star), longest consumption first.
Python's `\s` on the ASCII inputs this pipeline sees is the same class as
`str.strip()` whitespace. -/
def wsStarCands : List Char → List (List Char)
  | [] => [[]]
  | c :: rest => if isPySpace c then wsStarCands rest ++ [c :: rest] else [c :: rest]

/-- Candidates of `[0-9]{1,3}` (greedy) as (consumed, remainder) pairs. -/
def digits13Cands (cs : List Char) : List (List Char × List Char) :=
  let k := min 3 (cs.takeWhile Char.isDigit).length
  (List.range k).map fun i => (cs.take (k - i), cs.drop (k - i))

/-- Candidates of `(?:[, ][0-9]{3})*` (greedy star of a 4-character group). -/
def sepStarCands : List Char → List (List Char × List Char)
  | s :: a :: b :: c :: rest =>
    if (s == ',' || s == ' ') && a.isDigit && b.isDigit && c.isDigit then
      (sepStarCands rest).map (fun p => (s :: a :: b :: c :: p.1, p.2)) ++
        [([], s :: a :: b :: c :: rest)]
    else [([], s :: a :: b :: c :: rest)]
  | cs => [([], cs)]

/-- Candidates of `(?:\.[0-9]{2})?` (greedy optional). -/
def decOptCands (cs : List Char) : List (List Char × List Char) :=
  match cs with
  | '.' :: a :: b :: rest =>
    if a.isDigit && b.isDigit then [(['.', a, b], rest), ([], '.' :: a :: b :: rest)]
    else [([], '.' :: a :: b :: rest)]
  | _ => [([], cs)]

/-- The group captured by
`\$?\s*([0-9]{1,3}(?:[, ][0-9]{3})*(?:\.[0-9]{2})?)` when matched at the head
of `cs`. -/
def moneyGroupAt (cs : List Char) : Option (List Char) :=
  ((optDollarCands cs).flatMap fun r1 =>
    (wsStarCands r1).flatMap fun r2 =>
      (digits13Cands r2).flatMap fun g1 =>
        (sepStarCands g1.2).flatMap fun g2 =>
          (decOptCands g2.2).map fun g3 => g1.1 ++ g2.1 ++ g3.1).head?

/-- `money_rx.search`: the captured group of the leftmost match. -/
def moneySearch : List Char → Option (List Char)
  | [] => moneyGroupAt []
  | c :: rest =>
    match moneyGroupAt (c :: rest) with
    | some g => some g
    | none => moneySearch rest

def parseDigits (cs : List Char) : Nat :=
  cs.foldl (fun acc c => acc * 10 + (c.toNat - 48)) 0

/-- Python `float()` on a string of digits and dots that starts with a digit
(the only shapes reaching it in this pipeline): defined iff it has at most
one dot. -/
def pyFloat (cs : List Char) : Option ℚ :=
  match splitOnChar '.' cs with
  | [w] => some (parseDigits w)
  | [w, f] => some (parseDigits w + (parseDigits f : ℚ) / 10 ^ f.length)
  | _ => none

/-- `parse_money`: strip `,` and then spaces, search `money_rx`, convert the
captured group.  On the separator-stripped string the captured group is
digits with an optional two-digit decimal part, on which `float()` always
succeeds, so the conversion is total here. -/
def parse_money (s : List Char) : Option ℚ :=
  let s := removeChar ' ' (removeChar ',' s)
  (moneySearch s).bind pyFloat

/-- Case-insensitive literal match of `label` (given lowercased) at the head
of `cs`; returns the remainder. -/
def labelMatchCI : List Char → List Char → Option (List Char)
  | [], rest => some rest
  | _ :: _, [] => none
  | l :: ls, c :: rest => if c.toLower == l then labelMatchCI ls rest else none

/-- The group of `(.+)` (greedy, `.` excludes newline): requires one
non-newline character and captures through the end of the line. -/
def dotPlusGroup : List Char → Option (List Char)
  | [] => none
  | c :: rest => if c ≠ '\n' then some (c :: rest.takeWhile (· ≠ '\n')) else none

/-- The group captured by `<label>\s*[:\-]\s*(.+)` (IGNORECASE) matched at the
head of `cs`. -/
def vendorPatAt (label : List Char) (cs : List Char) : Option (List Char) :=
  match labelMatchCI label cs with
  | none => none
  | some r1 =>
    ((wsStarCands r1).flatMap fun r2 =>
      match r2 with
      | c :: r3 =>
        if c == ':' || c == '-' then
          (wsStarCands r3).flatMap fun r4 =>
            match dotPlusGroup r4 with
            | some g => [g]
            | none => []
        else []
      | [] => []).head?

def vendorSearch (label : List Char) : List Char → Option (List Char)
  | [] => vendorPatAt label []
  | c :: rest =>
    match vendorPatAt label (c :: rest) with
    | some g => some g
    | none => vendorSearch label rest

/-- `sniff_vendor`: try `Vendor`- then `Client`-labelled patterns; trim the
captured remainder of the line and cap it at 120 characters. -/
def sniff_vendor (text : List Char) : Option (List Char) :=
  match vendorSearch "vendor".data text with
  | some g => some ((pyStrip g).take 120)
  | none =>
    match vendorSearch "client".data text with
    | some g => some ((pyStrip g).take 120)
    | none => none

/-- The character class `[0-9,\. ]`. -/
def isMoneyClass (c : Char) : Bool := c.isDigit || c == ',' || c == '.' || c == ' '

/-- The group of `([0-9][0-9,\. ]+)` (greedy) at the head of `cs`. -/
def moneyPlusGroup : List Char → Option (List Char)
  | [] => none
  | a :: rest =>
    if a.isDigit then
      let run := rest.takeWhile isMoneyClass
      if run.isEmpty then none else some (a :: run)
    else none

/-- Candidates of `.{0,40}` (greedy, `.` excludes newline), longest first. -/
def dotWindowCands : List Char → Nat → List (List Char)
  | cs, 0 => [cs]
  | [], _ + 1 => [[]]
  | c :: rest, m + 1 =>
    if c ≠ '\n' then dotWindowCands rest m ++ [c :: rest] else [c :: rest]

/-- The group captured by `<label>.{0,40}\$?\s*([0-9][0-9,\. ]+)` (IGNORECASE)
matched at the head of `cs`. -/
def gtPatAt (label : List Char) (cs : List Char) : Option (List Char) :=
  match labelMatchCI label cs with
  | none => none
  | some r1 =>
    ((dotWindowCands r1 40).flatMap fun r2 =>
      (optDollarCands r2).flatMap fun r3 =>
        (wsStarCands r3).flatMap fun r4 =>
          match moneyPlusGroup r4 with
          | some g => [g]
          | none => []).head?

def gtSearch (label : List Char) : List Char → Option (List Char)
  | [] => gtPatAt label []
  | c :: rest =>
    match gtPatAt label (c :: rest) with
    | some g => some g
    | none => gtSearch label rest

/-- One iteration of `sniff_grand_total`'s loop body: search for the label's
pattern; on a match, strip separators from the group and attempt `float()`,
where a raised `ValueError` (more than one dot) yields `none`, which the
caller treats as fall-through to the next label. -/
def gtTryLabel (label : List Char) (fulltext : List Char) : Option ℚ :=
  match gtSearch label fulltext with
  | some g => pyFloat (removeChar ' ' (removeChar ',' g))
  | none => none

/-- `sniff_grand_total`: labels tried in order; a parse failure for one label
falls through to the next; `none` when no label yields a value. -/
def sniff_grand_total (fulltext : List Char) : Option ℚ :=
  match gtTryLabel "grand total".data fulltext with
  | some q => some q
  | none =>
    match gtTryLabel "contract total".data fulltext with
    | some q => some q
    | none => gtTryLabel "total".data fulltext

/-! ## Fragment records and the extraction adapters

The external extractors (txtai `Textractor`, `pdfplumber`) are collaborators:
a document is modelled by the raw material they yield — its paragraph texts
and its per-page tables of rows of (possibly `None`) cell strings. -/

structure Frag where
  id : String
  text : List Char
  docname : String
  source : String
  type : String
  page : Option Nat := none
deriving DecidableEq

def paragraph_chunk_id (doc_id : String) (i : Nat) (text : List Char) : String :=
  make_id "PCH" (.dict
    [("doc".data, .jstr doc_id.data), ("i".data, .jnat i), ("t".data, .jstr (text.take 300))])

/-- `paragraph_chunks`: one fragment per extractor-yielded paragraph, in
order, with the id derived from (doc, index, first 300 characters). -/
def paragraph_chunks (docname source doc_id : String) (paragraphs : List (List Char)) :
    List Frag :=
  paragraphs.enum.map fun p =>
    { id := paragraph_chunk_id doc_id p.1 p.2, text := p.2, docname := docname,
      source := source, type := "paragraph" }

/-- `(c or "").strip()` applied to each cell of a row. -/
def rowCells (row : List (Option (List Char))) : List (List Char) :=
  row.map fun c => pyStrip (c.getD [])

def table_row_id (doc_id : String) (p r : Nat) (cells : List (List Char)) : String :=
  make_id "TBL" (.dict
    [("doc".data, .jstr doc_id.data), ("p".data, .jnat p), ("r".data, .jnat r),
     ("c".data, .jarr (cells.take 10))])

/-- The fragment the row at index `r` of a table on page `p` yields. -/
def rowFrag (docname source doc_id : String) (p r : Nat) (cells : List (List Char)) : Frag :=
  { id := table_row_id doc_id p r cells, text := joinWith " | ".data cells,
    docname := docname, source := source, type := "table-row", page := some p }

/-- The `for r_i, row in enumerate(table)` loop: `r` is the index of the next
row; a row is skipped (`continue`) when every stripped cell is empty. -/
def tableFragsAux (docname source doc_id : String) (p : Nat) (r : Nat) :
    List (List (Option (List Char))) → List Frag
  | [] => []
  | row :: rest =>
    let cells := rowCells row
    if cells.any (fun c => !c.isEmpty) then
      rowFrag docname source doc_id p r cells :: tableFragsAux docname source doc_id p (r + 1) rest
    else tableFragsAux docname source doc_id p (r + 1) rest

/-- The fragments one extracted table yields. -/
def tableFrags (docname source doc_id : String) (p : Nat)
    (table : List (List (Option (List Char)))) : List Frag :=
  tableFragsAux docname source doc_id p 0 table

/-- The `for page_index, page in enumerate(pdf.pages, start=1)` loop. -/
def tableRowsAux (docname source doc_id : String) (p : Nat) :
    List (List (List (List (Option (List Char))))) → List Frag
  | [] => []
  | page :: rest =>
    page.flatMap (tableFrags docname source doc_id p) ++
      tableRowsAux docname source doc_id (p + 1) rest

/-- `table_rows`: pages enumerated from 1, each page's tables in order, each
table's rows enumerated from 0. -/
def table_rows (docname source doc_id : String)
    (pages : List (List (List (List (Option (List Char)))))) : List Frag :=
  tableRowsAux docname source doc_id 1 pages

/-! ## The directed graph (networkx `DiGraph`)

Nodes are an association list id ↦ attributes — `add_node` on an existing id
merges attributes (every call site passes the full attribute set for its node
kind, so the merge is field-wise right-bias) — and there is at most one edge
per (source, target) pair, its `rel` overwritten on re-add.  `compose` is the
id-keyed union with the second graph's attributes winning. -/

structure NodeData where
  label : Option String := none
  type : Option String := none
  name : Option String := none
  docname : Option String := none
  path : Option String := none
  page : Option Nat := none
  desc : Option (List Char) := none
  ext_cost : Option ℚ := none
deriving DecidableEq

structure Edge where
  src : String
  tgt : String
  rel : String
deriving DecidableEq

structure Graph where
  nodes : List (String × NodeData)
  edges : List Edge
deriving DecidableEq

def emptyGraph : Graph := { nodes := [], edges := [] }

def mergeData (old new : NodeData) : NodeData :=
  { label := new.label <|> old.label, type := new.type <|> old.type,
    name := new.name <|> old.name, docname := new.docname <|> old.docname,
    path := new.path <|> old.path, page := new.page <|> old.page,
    desc := new.desc <|> old.desc, ext_cost := new.ext_cost <|> old.ext_cost }

def addNode (g : Graph) (i : String) (d : NodeData) : Graph :=
  if g.nodes.any (fun p => p.1 == i) then
    { g with nodes := g.nodes.map fun p => if p.1 == i then (p.1, mergeData p.2 d) else p }
  else { g with nodes := g.nodes ++ [(i, d)] }

/-- The empty attribute dict networkx gives a node created implicitly by
`add_edge`. -/
def emptyNodeData : NodeData := {}

def ensureNode (g : Graph) (i : String) : Graph :=
  if g.nodes.any (fun p => p.1 == i) then g
  else { g with nodes := g.nodes ++ [(i, emptyNodeData)] }

def addEdge (g : Graph) (u v rel : String) : Graph :=
  let g := ensureNode (ensureNode g u) v
  if g.edges.any (fun e => e.src == u && e.tgt == v) then
    { g with edges := g.edges.map fun e =>
        if e.src == u && e.tgt == v then { e with rel := rel } else e }
  else { g with edges := g.edges ++ [{ src := u, tgt := v, rel := rel }] }

def compose (g h : Graph) : Graph :=
  let g1 := h.nodes.foldl (fun acc p => addNode acc p.1 p.2) g
  h.edges.foldl (fun acc e => addEdge acc e.src e.tgt e.rel) g1

/-! ## Graph builder -/

structure LineItem where
  desc : List Char
  qty : Option ℚ := none
  unit : Option String := none
  unit_cost : Option ℚ := none
  ext_cost : Option ℚ := none
  page : Option Nat := none
deriving DecidableEq

structure DocMap where
  doc_id : String
  docname : String
  vendor : Option (List Char) := none
  grand_total : Option ℚ := none
  items : List LineItem := []
deriving DecidableEq

/-- The raw material of one PDF: what the external extractors yield for it.
`tablesOk = false` models `pdfplumber` raising during table extraction, which
the source catches, degrading to zero table rows for the document. -/
structure RawDoc where
  name : String
  path : String
  size : Nat
  paragraphs : List (List Char)
  pages : List (List (List (List (Option (List Char)))))
  tablesOk : Bool := true

def doc_id_of (d : RawDoc) : String :=
  make_id "DOC" (.dict [("name".data, .jstr d.name.data), ("size".data, .jnat d.size)])

def ent_id_of (vendor : List Char) : String :=
  make_id "ENT" (.dict [("type".data, .jstr "Vendor".data), ("name".data, .jstr vendor)])

def line_item_id (doc_id : String) (page : Option Nat) (desc : List Char) (ext : ℚ) : String :=
  make_id "LIT" (.dict
    [("doc".data, .jstr doc_id.data),
     ("page".data, match page with | some p => .jnat p | none => .jnull),
     ("desc".data, .jstr desc), ("ext".data, .jnum ext)])

/-- `ext_cost = parse_money(parts[-1]) if len(parts) >= 2 else None`. -/
def rowExt (parts : List (List Char)) : Option ℚ :=
  if parts.length ≥ 2 then parse_money (parts.getLastD []) else none

/-- Loop body over table-row chunks: chunk node and `HAS_CHUNK` edge, then a
`LineItem` node with `HAS_LINEITEM` and (entity present) `ITEM_FOR` edges when
the row's last cell parses as money. -/
def buildRowStep (doc_id : String) (entid : Option String) (acc : Graph × List LineItem)
    (rc : Frag) : Graph × List LineItem :=
  let g := addNode acc.1 rc.id
    { label := some "Chunk", type := some rc.type, page := rc.page, docname := some rc.docname }
  let g := addEdge g doc_id rc.id "HAS_CHUNK"
  let parts := (splitOnChar '|' rc.text).map pyStrip
  let ext := rowExt parts
  match ext with
  | some x =>
    let desc := (joinWith " | ".data parts.dropLast).take 200
    let li : LineItem := { desc := desc, ext_cost := some x, page := rc.page }
    let lid := line_item_id doc_id rc.page desc x
    let g := addNode g lid
      { label := some "LineItem", ext_cost := some x, page := rc.page, desc := some desc }
    let g := addEdge g rc.id lid "HAS_LINEITEM"
    let g := match entid with
      | some e => addEdge g lid e "ITEM_FOR"
      | none => g
    (g, acc.2 ++ [li])
  | none => (g, acc.2)

/-- Loop body over paragraph chunks: chunk node, `HAS_CHUNK` edge, and
(entity present) a `MENTIONS` edge to the entity. -/
def buildParStep (doc_id : String) (entid : Option String) (g : Graph) (pc : Frag) : Graph :=
  let g := addNode g pc.id
    { label := some "Chunk", type := some pc.type, docname := some pc.docname }
  let g := addEdge g doc_id pc.id "HAS_CHUNK"
  match entid with
  | some e => addEdge g pc.id e "MENTIONS"
  | none => g

/-- `build_graph_and_maps`. -/
def build_graph_and_maps (d : RawDoc) : Graph × DocMap × List Frag :=
  let doc_id := doc_id_of d
  let g := addNode emptyGraph doc_id
    { label := some "Document", docname := some d.name, path := some d.path }
  let pchunks := paragraph_chunks d.name d.path doc_id d.paragraphs
  let fulltext := joinWith ['\n'] (pchunks.map Frag.text)
  let vendor := sniff_vendor fulltext
  let gt := sniff_grand_total fulltext
  let entid : Option String := match vendor with
    | some v => if v.isEmpty then none else some (ent_id_of v)
    | none => none
  let g := match vendor with
    | some v =>
      if v.isEmpty then g
      else
        addEdge
          (addNode g (ent_id_of v)
            { label := some "Entity", type := some "Vendor", name := some (String.mk v) })
          doc_id (ent_id_of v) "HAS_ENTITY"
    | none => g
  let row_chunks := if d.tablesOk then table_rows d.name d.path doc_id d.pages else []
  let gl := row_chunks.foldl (buildRowStep doc_id entid) (g, [])
  let g := pchunks.foldl (buildParStep doc_id entid) gl.1
  let docmap : DocMap :=
    { doc_id := doc_id, docname := d.name, vendor := vendor, grand_total := gt, items := gl.2 }
  (g, docmap, row_chunks ++ pchunks)

/-! ## Retrieval engine (`graph_rag.py`) -/

def lookupMap (m : List (String × Frag)) (k : String) : Option Frag :=
  match m.find? (fun p => p.1 == k) with
  | some p => some p.2
  | none => none

def nodeLabel (g : Graph) (i : String) : Option String :=
  match g.nodes.find? (fun p => p.1 == i) with
  | some p => p.2.label
  | none => none

/-- The `targets` set of `cids_for_entity`: `Entity` nodes whose `name`
attribute equals the requested name case-insensitively. -/
def entityTargets (g : Graph) (entity_name : String) : List String :=
  (g.nodes.filter fun p =>
    p.2.label == some "Entity" &&
      pyLower (p.2.name.getD "").data == pyLower entity_name.data).map Prod.fst

/-- `cids_for_entity`: for each matching entity, the sources of its incoming
edges and the targets of its outgoing edges that are labelled `Chunk`.  The
Python `set` is modelled as a list up to membership. -/
def cids_for_entity (g : Graph) (entity_name : String) : List String :=
  (entityTargets g entity_name).flatMap fun ent =>
    ((g.edges.filter fun e => e.tgt == ent).filterMap fun e =>
      if nodeLabel g e.src == some "Chunk" then some e.src else none) ++
    ((g.edges.filter fun e => e.src == ent).filterMap fun e =>
      if nodeLabel g e.tgt == some "Chunk" then some e.tgt else none)

/-- Truthiness of the `scope_cids` argument: a non-`None`, non-empty set. -/
def scopeActive (scope : Option (List String)) : Bool :=
  match scope with
  | some s => !s.isEmpty
  | none => false

/-- The loop of `top_context`: `n` is the number of texts collected so far;
the loop breaks right after an append makes the count reach `k`. -/
def topContextGo (chunk_map : List (String × Frag)) (scope : Option (List String)) (k : Nat) :
    List String → Nat → List (List Char)
  | [], _ => []
  | h :: rest, n =>
    if scopeActive scope && !(scope.getD []).contains h then
      topContextGo chunk_map scope k rest n
    else
      match lookupMap chunk_map h with
      | none => topContextGo chunk_map scope k rest n
      | some r =>
        if n + 1 ≥ k then [r.text]
        else r.text :: topContextGo chunk_map scope k rest (n + 1)

/-- `top_context`, parameterized by the ranked hit ids the external semantic
index returns (`emb.search(question, limit=60)`). -/
def top_context (hits : List String) (chunk_map : List (String × Frag))
    (scope_cids : Option (List String)) (k : Nat) : List (List Char) :=
  topContextGo chunk_map scope_cids k hits 0

structure RefRec where
  id : String
  docname : Option String
  page : Option Nat
  type : Option String
deriving DecidableEq

/-- `resolve_refs`: `chunk_map.get(rid, {})` then `.get` per field, so a
missing id yields a record with `None` fields. -/
def resolve_refs (chunk_map : List (String × Frag)) (refs : List String) : List RefRec :=
  refs.map fun rid =>
    match lookupMap chunk_map rid with
    | some r => { id := rid, docname := some r.docname, page := r.page, type := some r.type }
    | none => { id := rid, docname := none, page := none, type := none }

/-- The scope set `ask` accumulates: `set()`, unioned with
`cids_for_entity(G, e)` for each requested name when `entities` is truthy
(a non-`None`, non-empty list). -/
def askScope (g : Graph) (entities : Option (List String)) : List String :=
  match entities with
  | some es =>
    if es.isEmpty then []
    else es.foldl (fun s e => s ++ (cids_for_entity g e).filter (fun c => !s.contains c)) []
  | none => []

/-- Python `scope or None` on the accumulated scope set. -/
def pyOrNone (s : List String) : Option (List String) :=
  if s.isEmpty then none else some s

/-- The context `ask` passes to the answerer: `top_context` with
`scope_cids = scope or None` and `k = 12`, parameterized by the ranked hit
ids of the external semantic index. -/
def ask_context (g : Graph) (chunk_map : List (String × Frag)) (hits : List String)
    (entities : Option (List String)) : List (List Char) :=
  top_context hits chunk_map (pyOrNone (askScope g entities)) 12

/-! ## Derived notions and concrete instances used in the theorems -/

/-- The `Entity`-labelled nodes of a graph. -/
def entityNodes (g : Graph) : List (String × NodeData) :=
  g.nodes.filter fun p => p.2.label == some "Entity"

def graphKeys (g : Graph) : List String := g.nodes.map Prod.fst

/-- The fulltext the builder sniffs: the paragraph fragments' texts joined
with newlines. -/
def fulltextOf (d : RawDoc) : List Char :=
  joinWith ['\n'] ((paragraph_chunks d.name d.path (doc_id_of d) d.paragraphs).map Frag.text)

/-- A crafted corpus graph in the shape of the spec's testable property:
chunk `A` mentions entity `X`, chunk `B` mentions entity `Y`, chunk `C` is
unscoped. -/
def demoGraph : Graph :=
  { nodes :=
      [("ENT:x", { label := some "Entity", type := some "Vendor", name := some "X" }),
       ("ENT:y", { label := some "Entity", type := some "Vendor", name := some "Y" }),
       ("A", { label := some "Chunk", type := some "paragraph" }),
       ("B", { label := some "Chunk", type := some "paragraph" }),
       ("C", { label := some "Chunk", type := some "paragraph" })],
    edges :=
      [{ src := "A", tgt := "ENT:x", rel := "MENTIONS" },
       { src := "B", tgt := "ENT:y", rel := "MENTIONS" }] }

/-- A fragment-record map for the crafted graph's chunks. -/
def demoMap : List (String × Frag) :=
  [("A", { id := "A", text := "ta".data, docname := "a.pdf", source := "a", type := "paragraph" }),
   ("B", { id := "B", text := "tb".data, docname := "a.pdf", source := "a", type := "paragraph" }),
   ("C", { id := "C", text := "tc".data, docname := "a.pdf", source := "a", type := "paragraph" })]

/-- A document whose sole paragraph names the vendor `ACME Corp`. -/
def docA : RawDoc :=
  { name := "a.pdf", path := "data/pdfs/a.pdf", size := 100,
    paragraphs := ["Vendor: ACME Corp".data], pages := [] }

/-- A document naming the same vendor in different case. -/
def docB : RawDoc :=
  { name := "b.pdf", path := "data/pdfs/b.pdf", size := 200,
    paragraphs := ["Vendor: acme corp".data], pages := [] }

/-- A document naming the vendor with exactly `docA`'s string. -/
def docB2 : RawDoc :=
  { name := "b.pdf", path := "data/pdfs/b.pdf", size := 200,
    paragraphs := ["Vendor: ACME Corp".data], pages := [] }

/-- A document with one table containing an all-blank row and a non-blank
row. -/
def docC : RawDoc :=
  { name := "c.pdf", path := "data/pdfs/c.pdf", size := 50, paragraphs := [],
    pages := [[[[some "  ".data, none], [some "x".data, some "y".data]]]] }

/-- The merge of the per-document graphs, as the indexing entry point does:
start from an empty graph and compose each document's graph in turn. -/
def mergeDocs (docs : List RawDoc) : Graph :=
  docs.foldl (fun acc d => compose acc (build_graph_and_maps d).1) emptyGraph

def dfltRef : RefRec := { id := "", docname := none, page := none, type := none }

/-! ## Claim theorems -/

/-- C2: the claim says `parse_money` maps `"$1,234.56"` to `1234.56` and
`"12 345"` to `12345.0`.  It does not: separators are stripped *before* the
regex runs, so the grouped-digits alternative can never fire and the greedy
`[0-9]{1,3}` captures only the first three digits — both inputs map to
`123.0`.  The rejection of digit-free strings does hold. -/
theorem parse_money_truncates_grouped_digits :
    parse_money "$1,234.56".data = some 123 ∧
    parse_money "12 345".data = some 123 ∧
    parse_money "no numbers here".data = none := by
  refine ⟨by decide, by decide, by decide⟩

/-- C1: the claim says a scope matching no `Entity` node yields an empty
context with no silent fallback to unscoped search.  The code does the
opposite: the empty candidate set is turned into `None` by `scope or None`,
so `top_context` filters nothing and the context equals the unscoped one. -/
theorem ask_unknown_entity_falls_back_unscoped :
    cids_for_entity demoGraph "Zed" = [] ∧
    askScope demoGraph (some ["Zed"]) = [] ∧
    ask_context demoGraph demoMap ["A", "B"] (some ["Zed"]) = ["ta".data, "tb".data] ∧
    ask_context demoGraph demoMap ["A", "B"] (some ["Zed"]) =
      ask_context demoGraph demoMap ["A", "B"] none := by
  refine ⟨by decide, by decide, by decide, by decide⟩

/-- C10: a paragraph fragment's id hashes only the document id, the
fragment's index, and the first 300 characters of its text, so two texts
that agree on their first 300 characters get identical chunk ids at the same
position of the same document. -/
theorem paragraph_chunk_id_first300 (doc_id : String) (i : Nat) (t1 t2 : List Char)
    (h : t1.take 300 = t2.take 300) :
    paragraph_chunk_id doc_id i t1 = paragraph_chunk_id doc_id i t2 := by
  unfold paragraph_chunk_id
  rw [h]

lemma hexChar_mem (n : Nat) : hexChar n ∈ hexDigitChars := by
  unfold hexChar
  rcases Nat.lt_or_ge n 16 with h | h
  · interval_cases n <;> decide
  · rw [List.getD_eq_default]
    · decide
    · simpa using h

lemma length_wordLE4 (w : Nat) : (wordLE4 w).length = 4 := rfl

lemma blake2s8_length (msg : List Nat) : (blake2s8 msg).length = 8 := by
  simp [blake2s8, wordLE4]

lemma hexdigest_length (bs : List Nat) : (hexdigest bs).length = 2 * bs.length := by
  induction bs with
  | nil => rfl
  | cons b rest ih =>
    simp only [hexdigest, List.flatMap_cons, List.length_append] at ih ⊢
    simp [byteHex, ih]
    omega

lemma hexdigest_mem (bs : List Nat) : ∀ c ∈ hexdigest bs, c ∈ hexDigitChars := by
  intro c hc
  simp only [hexdigest, List.mem_flatMap] at hc
  obtain ⟨b, _, hb⟩ := hc
  simp only [byteHex, List.mem_cons, List.not_mem_nil, or_false] at hb
  rcases hb with rfl | rfl
  · exact hexChar_mem _
  · exact hexChar_mem _

/-- C6: `make_id` is a total function; every id it produces is the kind, a
colon, and 16 hex characters (the hex encoding of the 8-byte digest); dict
payloads are canonicalized by sorted-key serialization truncated to 2048
characters before hashing; and identical inputs give identical ids. -/
theorem make_id_total_deterministic_format (kind : String) (payload : Payload) :
    (∃ h : List Char, make_id kind payload = kind ++ ":" ++ String.mk h ∧
       h.length = 16 ∧ ∀ c ∈ h, c ∈ hexDigitChars) ∧
    (∀ d, payload = Payload.dict d → canonPayload payload = (dumpsDict d).take 2048) ∧
    (∀ payload2, payload = payload2 → make_id kind payload = make_id kind payload2) := by
  refine ⟨⟨hexdigest (blake2s8 (utf8 (canonPayload payload))), rfl, ?_, hexdigest_mem _⟩, ?_, ?_⟩
  · rw [hexdigest_length, blake2s8_length]
  · rintro d rfl
    rfl
  · rintro p2 rfl
    rfl

/-- Witness for C6 at a concrete dict payload. -/
theorem make_id_total_deterministic_format_witness :
    (∃ h : List Char,
        make_id "ENT" (Payload.dict [("name".data, JVal.jstr "A".data)]) =
          "ENT" ++ ":" ++ String.mk h ∧ h.length = 16 ∧ ∀ c ∈ h, c ∈ hexDigitChars) ∧
    canonPayload (Payload.dict [("name".data, JVal.jstr "A".data)]) =
      (dumpsDict [("name".data, JVal.jstr "A".data)]).take 2048 :=
  ⟨(make_id_total_deterministic_format "ENT" (Payload.dict [("name".data, JVal.jstr "A".data)])).1,
    (make_id_total_deterministic_format "ENT"
      (Payload.dict [("name".data, JVal.jstr "A".data)])).2.1 _ rfl⟩

/-- C9: `resolve_refs` is total: one output record per input id, in input
order, and an id absent from the fragment map yields a record with that id
and `None` docname, page and type. -/
theorem resolve_refs_total (m : List (String × Frag)) (refs : List String) :
    (resolve_refs m refs).length = refs.length ∧
    ∀ i, i < refs.length →
      (resolve_refs m refs).getD i dfltRef =
        match lookupMap m (refs.getD i "") with
        | some r => { id := refs.getD i "", docname := some r.docname, page := r.page,
                      type := some r.type }
        | none => { id := refs.getD i "", docname := none, page := none, type := none } := by
  constructor
  · simp [resolve_refs]
  · intro i hi
    induction refs generalizing i with
    | nil => simp at hi
    | cons a rest ih =>
      cases i with
      | zero => simp [resolve_refs]
      | succ j =>
        have hj : j < rest.length := by simpa using hi
        simpa [resolve_refs] using ih j hj

/-- Witness for C9 at a two-element reference list whose second id is absent
from the fragment map. -/
theorem resolve_refs_total_witness :
    1 < 2 ∧ (resolve_refs demoMap ["A", "nope"]).getD 1 dfltRef =
      { id := "nope", docname := none, page := none, type := none } := by
  constructor
  · decide
  · have h := (resolve_refs_total demoMap ["A", "nope"]).2 1 (by decide)
    exact h.trans (by decide)

lemma topContextGo_eq_take (cmap : List (String × Frag)) (scope : List String)
    (hs : scope ≠ []) (k : Nat) :
    ∀ (hits : List String) (n : Nat), n < max 1 k →
      topContextGo cmap (some scope) k hits n =
        ((hits.filter fun c => scope.contains c).filterMap
            fun c => (lookupMap cmap c).map Frag.text).take (max 1 k - n) := by
  intro hits
  induction hits with
  | nil => intro n _; simp [topContextGo]
  | cons h rest ih =>
    intro n hn
    have hact : scopeActive (some scope) = true := by
      simp [scopeActive, hs]
    by_cases hm : h ∈ scope
    · have hsc : scope.contains h = true := by simpa using hm
      cases hl : lookupMap cmap h with
      | none => simp [topContextGo, hact, hsc, hl, ih n hn, List.filter_cons, hm]
      | some r =>
        by_cases hk : n + 1 ≥ k
        · have h1 : max 1 k - n = 1 := by omega
          simp [topContextGo, hact, hsc, hl, hk, h1, List.filter_cons, hm]
        · have h2 : max 1 k - n = (max 1 k - (n + 1)) + 1 := by omega
          have h3 : n + 1 < max 1 k := by omega
          simp [topContextGo, hact, hsc, hl, hk, h2, ih (n + 1) h3, List.filter_cons, hm]
    · have hsc : scope.contains h = false := by simpa using hm
      simp [topContextGo, hact, hsc, ih n hn, List.filter_cons, hm]

lemma topContextGo_length_le (cmap : List (String × Frag)) (scope : Option (List String))
    (k : Nat) :
    ∀ (hits : List String) (n : Nat), (topContextGo cmap scope k hits n).length ≤ max 1 (k - n) := by
  intro hits
  induction hits with
  | nil => intro n; simp [topContextGo]
  | cons h rest ih =>
    intro n
    by_cases hsc : (scopeActive scope && !(scope.getD []).contains h) = true
    · simp only [topContextGo, if_pos hsc]
      exact ih n
    · simp only [topContextGo, if_neg hsc]
      cases hl : lookupMap cmap h with
      | none => exact ih n
      | some r =>
        by_cases hk : n + 1 ≥ k
        · simp only [if_pos hk, List.length_cons, List.length_nil]
          have h1 : 1 ≤ max 1 (k - n) := Nat.le_max_left 1 (k - n)
          omega
        · simp only [if_neg hk, List.length_cons]
          have h4 := ih (n + 1)
          have e1 : max 1 (k - n) = k - n := Nat.max_eq_right (by omega)
          have e2 : max 1 (k - (n + 1)) = k - (n + 1) := Nat.max_eq_right (by omega)
          rw [e1]
          rw [e2] at h4
          omega

/-- C4: with an active (non-empty) scope set, `top_context` is exactly: keep
the ranked hits that are in the scope, resolve them in the fragment map
(dropping stale ids), and take the first `k` texts in hit order (`max 1 k`
accounts for the source's post-append break, which returns one item even for
`k = 0`); and with any scope argument it never returns more than 12 items at
the engine's `k = 12`. -/
theorem top_context_filter_take (hits : List String) (cmap : List (String × Frag))
    (scope : List String) (k : Nat) (hs : scope ≠ []) :
    top_context hits cmap (some scope) k =
      ((hits.filter fun c => scope.contains c).filterMap
          fun c => (lookupMap cmap c).map Frag.text).take (max 1 k) ∧
    ∀ sc : Option (List String), (top_context hits cmap sc 12).length ≤ 12 := by
  constructor
  · have h := topContextGo_eq_take cmap scope hs k hits 0 (by omega)
    simpa [top_context] using h
  · intro sc
    have h := topContextGo_length_le cmap sc 12 hits 0
    simpa [top_context] using h

/-- Witness for C4 at a four-hit list, a three-chunk fragment map, scope
`{A, B, C}` and `k = 2`. -/
theorem top_context_filter_take_witness :
    (["A", "B", "C"] : List String) ≠ [] ∧
    top_context ["A", "X", "B", "C"] demoMap (some ["A", "B", "C"]) 2 =
      ((["A", "X", "B", "C"].filter fun c => (["A", "B", "C"] : List String).contains c).filterMap
          fun c => (lookupMap demoMap c).map Frag.text).take (max 1 2) ∧
    (top_context ["A", "X", "B", "C"] demoMap none 12).length ≤ 12 := by
  have h := top_context_filter_take ["A", "X", "B", "C"] demoMap ["A", "B", "C"] 2 (by decide)
  exact ⟨by decide, h.1, h.2 none⟩

lemma unionFold_mem (g : Graph) :
    ∀ (names : List String) (init : List String) (c : String),
      (c ∈ names.foldl
          (fun s e => s ++ (cids_for_entity g e).filter fun x => !s.contains x) init) ↔
        c ∈ init ∨ ∃ nm ∈ names, c ∈ cids_for_entity g nm := by
  intro names
  induction names with
  | nil => simp
  | cons a rest ih =>
    intro init c
    simp only [List.foldl_cons]
    rw [ih]
    simp only [List.mem_append, List.mem_filter, List.mem_cons]
    constructor
    · rintro (⟨hc | ⟨hc, _⟩⟩ | ⟨nm, hnm, hc⟩)
      · exact Or.inl hc
      · exact Or.inr ⟨a, Or.inl rfl, hc⟩
      · exact Or.inr ⟨nm, Or.inr hnm, hc⟩
    · rintro (hc | ⟨nm, rfl | hnm, hc⟩)
      · exact Or.inl (Or.inl hc)
      · by_cases hi : c ∈ init
        · exact Or.inl (Or.inl hi)
        · exact Or.inl (Or.inr ⟨hc, by simpa using hi⟩)
      · exact Or.inr ⟨nm, hnm, hc⟩

/-- C5: the candidate set is, over every `Entity` node whose name equals a
requested name case-insensitively, the union of the `Chunk`-labelled nodes
one hop away in either edge direction; the scope accumulated by `ask` is the
union of the per-name candidate sets; an unmatched name contributes nothing;
and on the crafted graph, scoping to `X` selects exactly chunk `A`. -/
theorem cids_for_entity_spec :
    (∀ (g : Graph) (nm c : String),
      c ∈ cids_for_entity g nm ↔
        ∃ ent, ent ∈ entityTargets g nm ∧ nodeLabel g c = some "Chunk" ∧
          ((∃ e ∈ g.edges, e.src = c ∧ e.tgt = ent) ∨
            (∃ e ∈ g.edges, e.src = ent ∧ e.tgt = c))) ∧
    (∀ (g : Graph) (nm ent : String),
      ent ∈ entityTargets g nm ↔
        ∃ d : NodeData, (ent, d) ∈ g.nodes ∧ d.label = some "Entity" ∧
          pyLower (d.name.getD "").data = pyLower nm.data) ∧
    (∀ (g : Graph) (names : List String) (c : String),
      c ∈ askScope g (some names) ↔ ∃ nm ∈ names, c ∈ cids_for_entity g nm) ∧
    cids_for_entity demoGraph "X" = ["A"] ∧
    cids_for_entity demoGraph "x" = ["A"] ∧
    cids_for_entity demoGraph "Zed" = [] ∧
    askScope demoGraph (some ["X"]) = ["A"] := by
  refine ⟨?_, ?_, ?_, by decide, by decide, by decide, by decide⟩
  · intro g nm c
    simp only [cids_for_entity, List.mem_flatMap, List.mem_append, List.mem_filterMap,
      List.mem_filter, Option.ite_none_right_eq_some, Option.some.injEq, beq_iff_eq]
    constructor
    · rintro ⟨ent, hent, ⟨e, ⟨⟨he, htgt⟩, hlab, rfl⟩⟩ | ⟨e, ⟨⟨he, hsrc⟩, hlab, rfl⟩⟩⟩
      · exact ⟨ent, hent, hlab, Or.inl ⟨e, he, rfl, htgt⟩⟩
      · exact ⟨ent, hent, hlab, Or.inr ⟨e, he, hsrc, rfl⟩⟩
    · rintro ⟨ent, hent, hlab, ⟨e, he, rfl, htgt⟩ | ⟨e, he, hsrc, rfl⟩⟩
      · exact ⟨ent, hent, Or.inl ⟨e, ⟨he, htgt⟩, hlab, rfl⟩⟩
      · exact ⟨ent, hent, Or.inr ⟨e, ⟨he, hsrc⟩, hlab, rfl⟩⟩
  · intro g nm ent
    simp only [entityTargets, List.mem_map, List.mem_filter, Bool.and_eq_true, beq_iff_eq]
    constructor
    · rintro ⟨⟨i, d⟩, ⟨hmem, hlab, hname⟩, rfl⟩
      exact ⟨d, hmem, hlab, by simpa using hname⟩
    · rintro ⟨d, hmem, hlab, hname⟩
      exact ⟨(ent, d), ⟨hmem, hlab, by simpa using hname⟩, rfl⟩
  · intro g names c
    cases names with
    | nil => simp [askScope]
    | cons a rest =>
      simp only [askScope, List.isEmpty_cons, Bool.false_eq_true, if_false]
      rw [unionFold_mem]
      simp

lemma tableFragsAux_length (docname source doc_id : String) (p : Nat) :
    ∀ (table : List (List (Option (List Char)))) (r : Nat),
      (tableFragsAux docname source doc_id p r table).length =
        (table.filter fun row => (rowCells row).any fun c => !c.isEmpty).length := by
  intro table
  induction table with
  | nil => intro r; rfl
  | cons row rest ih =>
    intro r
    by_cases h : ((rowCells row).any fun c => !c.isEmpty) = true
    · simp [tableFragsAux, h, List.filter_cons, ih (r + 1)]
    · simp [tableFragsAux, h, List.filter_cons, ih (r + 1)]

set_option maxRecDepth 100000 in
/-- C7: a table row whose every stripped cell is empty is skipped entirely —
a table yields exactly one fragment per row with some non-blank cell, and
removing an all-blank row from a table leaves the number of fragments
unchanged; on the concrete document with one blank and one non-blank row,
the pipeline emits only the non-blank row's fragment, `Chunk` node and
`HAS_CHUNK` edge. -/
theorem table_rows_skip_blank :
    (∀ (docname source doc_id : String) (p : Nat) (table : List (List (Option (List Char)))),
      (tableFrags docname source doc_id p table).length =
        (table.filter fun row => (rowCells row).any fun c => !c.isEmpty).length) ∧
    (∀ (docname source doc_id : String) (p : Nat)
       (pre post : List (List (Option (List Char)))) (row : List (Option (List Char))),
      ((rowCells row).all fun c => c.isEmpty) →
      (tableFrags docname source doc_id p (pre ++ row :: post)).length =
        (tableFrags docname source doc_id p (pre ++ post)).length) ∧
    (build_graph_and_maps docC).2.2 =
      [rowFrag "c.pdf" "data/pdfs/c.pdf" (doc_id_of docC) 1 1 ["x".data, "y".data]] ∧
    ((build_graph_and_maps docC).1.nodes.filter fun q => q.2.label == some "Chunk").map Prod.fst =
      [table_row_id (doc_id_of docC) 1 1 ["x".data, "y".data]] ∧
    (build_graph_and_maps docC).1.edges =
      [{ src := doc_id_of docC, tgt := table_row_id (doc_id_of docC) 1 1 ["x".data, "y".data],
         rel := "HAS_CHUNK" }] := by
  refine ⟨?_, ?_, by decide, by decide, by decide⟩
  · intro docname source doc_id p table
    exact tableFragsAux_length docname source doc_id p table 0
  · intro docname source doc_id p pre post row hblank
    have hrow : ((rowCells row).any fun c => !c.isEmpty) = false := by
      simp only [List.all_eq_true] at hblank
      simp only [List.any_eq_false]
      intro c hc
      simp [hblank c hc]
    have h1 := tableFragsAux_length docname source doc_id p (pre ++ row :: post) 0
    have h2 := tableFragsAux_length docname source doc_id p (pre ++ post) 0
    unfold tableFrags
    rw [h1, h2, List.filter_append, List.filter_append, List.filter_cons, hrow]
    simp

/-- Witness for C7 at a concrete table with one all-blank and one non-blank
row. -/
theorem table_rows_skip_blank_witness :
    ((rowCells [some "  ".data, none]).all fun c => c.isEmpty) = true ∧
    (tableFrags "c.pdf" "p" "d" 1
        ([] ++ [some "  ".data, none] :: [[some "x".data, some "y".data]])).length =
      (tableFrags "c.pdf" "p" "d" 1 ([] ++ [[some "x".data, some "y".data]])).length :=
  ⟨by decide,
    table_rows_skip_blank.2.1 "c.pdf" "p" "d" 1 [] [[some "x".data, some "y".data]]
      [some "  ".data, none] (by decide)⟩

lemma labelMatchCI_suffix :
    ∀ (lab cs r : List Char), labelMatchCI lab cs = some r → r.IsSuffix cs := by
  intro lab
  induction lab with
  | nil =>
    intro cs r h
    simp only [labelMatchCI, Option.some.injEq] at h
    subst h
    exact List.suffix_refl cs
  | cons l ls ih =>
    intro cs r h
    cases cs with
    | nil => simp [labelMatchCI] at h
    | cons c rest =>
      simp only [labelMatchCI] at h
      by_cases hc : c.toLower == l
      · rw [if_pos hc] at h
        exact (ih rest r h).trans (List.suffix_cons c rest)
      · rw [if_neg hc] at h
        exact absurd h (by simp)

lemma wsStarCands_suffix : ∀ (cs r : List Char), r ∈ wsStarCands cs → r.IsSuffix cs := by
  intro cs
  induction cs with
  | nil =>
    intro r h
    simp only [wsStarCands, List.mem_singleton] at h
    subst h
    exact List.suffix_refl []
  | cons c rest ih =>
    intro r h
    simp only [wsStarCands] at h
    by_cases hc : isPySpace c = true
    · rw [if_pos hc] at h
      rcases List.mem_append.mp h with h1 | h1
      · exact (ih r h1).trans (List.suffix_cons c rest)
      · have h2 := List.mem_singleton.mp h1
        subst h2
        exact List.suffix_refl _
    · rw [if_neg hc] at h
      have h2 := List.mem_singleton.mp h
      subst h2
      exact List.suffix_refl _

lemma optDollarCands_suffix : ∀ (cs r : List Char), r ∈ optDollarCands cs → r.IsSuffix cs := by
  intro cs r h
  cases cs with
  | nil =>
    simp only [optDollarCands, List.mem_singleton] at h
    subst h
    exact List.suffix_refl _
  | cons c rest =>
    simp only [optDollarCands] at h
    by_cases hc : c = '$'
    · rw [if_pos hc] at h
      simp only [List.mem_cons, List.not_mem_nil, or_false] at h
      rcases h with rfl | rfl
      · exact List.suffix_cons _ _
      · exact List.suffix_refl _
    · rw [if_neg hc] at h
      have h2 := List.mem_singleton.mp h
      subst h2
      exact List.suffix_refl _

lemma dotWindowCands_suffix :
    ∀ (cs : List Char) (n : Nat) (r : List Char), r ∈ dotWindowCands cs n → r.IsSuffix cs := by
  intro cs
  induction cs with
  | nil =>
    intro n r h
    cases n with
    | zero =>
      have h2 := List.mem_singleton.mp h
      subst h2
      exact List.suffix_refl _
    | succ m =>
      have h2 := List.mem_singleton.mp h
      subst h2
      exact List.suffix_refl _
  | cons c rest ih =>
    intro n r h
    cases n with
    | zero =>
      have h2 := List.mem_singleton.mp h
      subst h2
      exact List.suffix_refl _
    | succ m =>
      simp only [dotWindowCands] at h
      by_cases hc : c ≠ '\n'
      · rw [if_pos hc] at h
        rcases List.mem_append.mp h with h1 | h1
        · exact (ih m r h1).trans (List.suffix_cons c rest)
        · have h2 := List.mem_singleton.mp h1
          subst h2
          exact List.suffix_refl _
      · rw [if_neg hc] at h
        have h2 := List.mem_singleton.mp h
        subst h2
        exact List.suffix_refl _

lemma moneyPlusGroup_noDigit (cs : List Char) (h : ∀ c ∈ cs, c.isDigit = false) :
    moneyPlusGroup cs = none := by
  cases cs with
  | nil => rfl
  | cons a rest => simp [moneyPlusGroup, h a (List.mem_cons_self a rest)]

lemma gtPatAt_noDigit (lab cs : List Char) (h : ∀ c ∈ cs, c.isDigit = false) :
    gtPatAt lab cs = none := by
  unfold gtPatAt
  cases hm : labelMatchCI lab cs with
  | none => rfl
  | some r1 =>
    have h1 : ∀ c ∈ r1, c.isDigit = false := fun c hc =>
      h c ((labelMatchCI_suffix lab cs r1 hm).subset hc)
    rw [List.head?_eq_none_iff]
    apply List.flatMap_eq_nil_iff.mpr
    intro r2 h2
    have hd2 : ∀ c ∈ r2, c.isDigit = false := fun c hc =>
      h1 c ((dotWindowCands_suffix r1 40 r2 h2).subset hc)
    apply List.flatMap_eq_nil_iff.mpr
    intro r3 h3
    have hd3 : ∀ c ∈ r3, c.isDigit = false := fun c hc =>
      hd2 c ((optDollarCands_suffix r2 r3 h3).subset hc)
    apply List.flatMap_eq_nil_iff.mpr
    intro r4 h4
    have hd4 : ∀ c ∈ r4, c.isDigit = false := fun c hc =>
      hd3 c ((wsStarCands_suffix r3 r4 h4).subset hc)
    rw [moneyPlusGroup_noDigit r4 hd4]

lemma gtSearch_noDigit (lab : List Char) :
    ∀ (t : List Char), (∀ c ∈ t, c.isDigit = false) → gtSearch lab t = none := by
  intro t
  induction t with
  | nil =>
    intro h
    simp only [gtSearch]
    rw [gtPatAt_noDigit lab [] h]
  | cons c rest ih =>
    intro h
    simp only [gtSearch]
    rw [gtPatAt_noDigit lab (c :: rest) h]
    exact ih fun x hx => h x (List.mem_cons_of_mem c hx)

set_option maxRecDepth 8000 in
/-- C8: `sniff_grand_total` tries `grand total`, `contract total`, `total` in
that order, case-insensitively, looking within a 40-character window after
the label for a currency-like number; a label whose captured number fails
`float()` falls through to the next label instead of aborting; and when no
label yields a parseable number the result is `none`, never an error (in
particular, for any text with no digit characters at all). -/
theorem sniff_grand_total_spec :
    sniff_grand_total "grand total 9..9..9\ncontract total 55".data = some 55 ∧
    gtSearch "grand total".data "grand total 9..9..9\ncontract total 55".data =
      some "9..9".data ∧
    gtTryLabel "grand total".data "grand total 9..9..9\ncontract total 55".data = none ∧
    sniff_grand_total "grand total 11\ntotal 22".data = some 11 ∧
    sniff_grand_total "Total 99".data = some 99 ∧
    sniff_grand_total ("total".data ++ List.replicate 41 'x' ++ "123".data) = none ∧
    sniff_grand_total ("total".data ++ List.replicate 39 'x' ++ "123".data) = some 23 ∧
    ∀ t : List Char, (∀ c ∈ t, c.isDigit = false) → sniff_grand_total t = none := by
  refine ⟨by decide, by decide, by decide, by decide, by decide, by decide, by decide, ?_⟩
  intro t h
  unfold sniff_grand_total gtTryLabel
  rw [gtSearch_noDigit _ t h, gtSearch_noDigit _ t h, gtSearch_noDigit _ t h]

/-- Witness for C8's no-digit clause at a concrete digit-free text. -/
theorem sniff_grand_total_spec_witness :
    (∀ c ∈ "no digits at all".data, c.isDigit = false) ∧
    sniff_grand_total "no digits at all".data = none :=
  ⟨by decide, sniff_grand_total_spec.2.2.2.2.2.2.2 "no digits at all".data (by decide)⟩

/-! ### Helper lemmas for the entity-dedup analysis (C3) -/

/-- The entity node the builder creates for a sniffed vendor name. -/
def entDataOf (v : List Char) : NodeData :=
  { label := some "Entity", type := some "Vendor", name := some (String.mk v) }

lemma optOrSelf {α : Type} (o : Option α) : (o <|> o) = o := by cases o <;> rfl

lemma mergeData_self (d : NodeData) : mergeData d d = d := by
  simp [mergeData, optOrSelf]

lemma map_eq_self {α : Type} (l : List α) (f : α → α) (h : ∀ x ∈ l, f x = x) :
    l.map f = l := by
  induction l with
  | nil => rfl
  | cons a rest ih =>
    simp only [List.map_cons]
    rw [h a (List.mem_cons_self a rest), ih fun x hx => h x (List.mem_cons_of_mem a hx)]

lemma assoc_unique (l : List (String × NodeData)) (h : (l.map Prod.fst).Nodup) :
    ∀ q1 ∈ l, ∀ q2 ∈ l, q1.1 = q2.1 → q1 = q2 := by
  induction l with
  | nil => intro q1 h1; simp at h1
  | cons a rest ih =>
    simp only [List.map_cons, List.nodup_cons] at h
    intro q1 h1 q2 h2 heq
    rcases List.mem_cons.mp h1 with e1 | h1 <;> rcases List.mem_cons.mp h2 with e2 | h2
    · rw [e1, e2]
    · exfalso
      apply h.1
      have h3 : q2.1 ∈ rest.map Prod.fst := List.mem_map_of_mem Prod.fst h2
      rw [← heq, e1] at h3
      exact h3
    · exfalso
      apply h.1
      have h3 : q1.1 ∈ rest.map Prod.fst := List.mem_map_of_mem Prod.fst h1
      rw [heq, e2] at h3
      exact h3
    · exact ih h.2 q1 h1 q2 h2 heq

lemma make_id_data (k : String) (p : Payload) :
    (make_id k p).data =
      k.data ++ ':' :: hexdigest (blake2s8 (utf8 (canonPayload p))) := by
  simp [make_id, String.data_append]

lemma make_id_head (k : String) (p : Payload) (c : Char) (hk : k.data.head? = some c) :
    (make_id k p).data.head? = some c := by
  rw [make_id_data, List.head?_append]
  rw [hk]
  rfl

lemma make_id_ne (k1 k2 : String) (p1 p2 : Payload) (c1 c2 : Char)
    (h1 : k1.data.head? = some c1) (h2 : k2.data.head? = some c2) (hc : c1 ≠ c2) :
    make_id k1 p1 ≠ make_id k2 p2 := by
  intro he
  have h3 := congrArg (fun s => s.data.head?) he
  simp only [make_id_head k1 p1 c1 h1, make_id_head k2 p2 c2 h2, Option.some.injEq] at h3
  exact hc h3

lemma any_key (g : Graph) (i : String) :
    (g.nodes.any fun p => p.1 == i) = true ↔ i ∈ graphKeys g := by
  simp only [graphKeys, List.any_eq_true, beq_iff_eq, List.mem_map]

lemma merge_not_entity (old new : NodeData) (h1 : ¬ new.label = some "Entity")
    (h2 : ¬ old.label = some "Entity") : ¬ (mergeData old new).label = some "Entity" := by
  have hl : (mergeData old new).label = (new.label <|> old.label) := rfl
  rw [hl]
  cases hn : new.label with
  | none => rw [Option.none_orElse]; exact h2
  | some s => rw [Option.some_orElse]; rw [hn] at h1; exact h1

lemma filter_replace_eq (l : List (String × NodeData)) (i : String) (d : NodeData)
    (hd : ¬ d.label = some "Entity")
    (hl : ∀ q ∈ l, q.1 = i → ¬ q.2.label = some "Entity") :
    (l.map fun p => if p.1 == i then (p.1, mergeData p.2 d) else p).filter
        (fun p => p.2.label == some "Entity") =
      l.filter fun p => p.2.label == some "Entity" := by
  rw [List.filter_map]
  have h1 : ∀ q ∈ l,
      ((fun p : String × NodeData => p.2.label == some "Entity") ∘
        fun p : String × NodeData => if p.1 == i then (p.1, mergeData p.2 d) else p) q =
        (q.2.label == some "Entity") := by
    intro q hq
    by_cases hqi : q.1 = i
    · have hqe := hl q hq hqi
      have hm := merge_not_entity q.2 d hd hqe
      simp only [Function.comp_apply, hqi, beq_self_eq_true, if_true]
      simp [hm, hqe]
    · simp [Function.comp, hqi]
  rw [List.filter_congr h1]
  apply map_eq_self
  intro q hq
  have hqmem := List.mem_filter.mp hq
  have hqe : q.2.label = some "Entity" := by simpa using hqmem.2
  have hqi : ¬ q.1 = i := fun hcon => hl q hqmem.1 hcon hqe
  simp [hqi]

lemma keys_replace (l : List (String × NodeData)) (i : String) (d : NodeData) :
    (l.map fun p => if p.1 == i then (p.1, mergeData p.2 d) else p).map Prod.fst =
      l.map Prod.fst := by
  rw [List.map_map]
  apply List.map_congr_left
  intro q _
  by_cases hqi : q.1 = i
  · simp [Function.comp, hqi]
  · simp [Function.comp, hqi]

lemma graphKeys_addNode (g : Graph) (i : String) (d : NodeData) :
    graphKeys (addNode g i d) =
      if i ∈ graphKeys g then graphKeys g else graphKeys g ++ [i] := by
  unfold addNode
  split
  next hany =>
    rw [if_pos ((any_key g i).mp hany)]
    exact keys_replace g.nodes i d
  next hany =>
    have hni : i ∉ graphKeys g := fun hmem => hany ((any_key g i).mpr hmem)
    rw [if_neg hni]
    simp [graphKeys]

lemma entityNodes_addNode (g : Graph) (i : String) (d : NodeData)
    (hd : ¬ d.label = some "Entity")
    (hg : ∀ q ∈ g.nodes, q.1 = i → ¬ q.2.label = some "Entity") :
    entityNodes (addNode g i d) = entityNodes g := by
  unfold addNode entityNodes
  split
  · exact filter_replace_eq g.nodes i d hd hg
  · rw [List.filter_append]
    have he : ((i, d).2.label == some "Entity") = false := by simpa using hd
    simp [List.filter_cons, he]

lemma entityNodes_addNode_entity (g : Graph) (i : String) (d : NodeData)
    (hni : i ∉ graphKeys g) :
    (addNode g i d).nodes = g.nodes ++ [(i, d)] := by
  unfold addNode
  split
  next hany => exact absurd ((any_key g i).mp hany) hni
  next hany => rfl

lemma addNode_present (g : Graph) (i : String) (d : NodeData)
    (hn : (graphKeys g).Nodup) (hmem : (i, d) ∈ g.nodes) (hmerge : mergeData d d = d) :
    addNode g i d = g := by
  unfold addNode
  split
  next hany =>
    have heq : (g.nodes.map fun p => if p.1 == i then (p.1, mergeData p.2 d) else p) = g.nodes := by
      apply map_eq_self
      intro q hq
      by_cases hqi : q.1 = i
      · have hq2 : q = (i, d) := assoc_unique g.nodes hn q hq (i, d) hmem hqi
        rw [hq2]
        simp [hmerge]
      · simp [hqi]
    rw [heq]
  next hany =>
    exact absurd ((any_key g i).mpr (List.mem_map_of_mem Prod.fst hmem)) hany

lemma ensureNode_cases (g : Graph) (i : String) :
    ensureNode g i = g ∨
      (i ∉ graphKeys g ∧ (ensureNode g i).nodes = g.nodes ++ [(i, emptyNodeData)] ∧
        (ensureNode g i).edges = g.edges) := by
  unfold ensureNode
  split
  next hany => exact Or.inl rfl
  next hany =>
    exact Or.inr ⟨fun hmem => hany ((any_key g i).mpr hmem), rfl, rfl⟩

lemma entityNodes_ensureNode (g : Graph) (i : String) :
    entityNodes (ensureNode g i) = entityNodes g := by
  rcases ensureNode_cases g i with h | ⟨_, h, _⟩
  · rw [h]
  · unfold entityNodes
    rw [h, List.filter_append]
    simp [List.filter_cons, emptyNodeData]

lemma graphKeys_ensureNode (g : Graph) (i : String) :
    graphKeys (ensureNode g i) = graphKeys g ∨
      (i ∉ graphKeys g ∧ graphKeys (ensureNode g i) = graphKeys g ++ [i]) := by
  rcases ensureNode_cases g i with h | ⟨hni, h, _⟩
  · exact Or.inl (by rw [h])
  · refine Or.inr ⟨hni, ?_⟩
    unfold graphKeys
    rw [h]
    simp

lemma nodup_ensureNode (g : Graph) (i : String) (hn : (graphKeys g).Nodup) :
    (graphKeys (ensureNode g i)).Nodup := by
  rcases graphKeys_ensureNode g i with h | ⟨hni, h⟩
  · rw [h]; exact hn
  · rw [h]
    simp [List.nodup_append, hn]
    exact hni

lemma keys_ensureNode_mono (g : Graph) (i : String) :
    ∀ k ∈ graphKeys g, k ∈ graphKeys (ensureNode g i) := by
  intro k hk
  rcases graphKeys_ensureNode g i with h | ⟨_, h⟩
  · rw [h]; exact hk
  · rw [h]; exact List.mem_append_left _ hk

lemma addEdge_nodes (g : Graph) (u v r : String) :
    (addEdge g u v r).nodes = (ensureNode (ensureNode g u) v).nodes := by
  unfold addEdge
  dsimp only
  split <;> rfl

lemma entityNodes_addEdge (g : Graph) (u v r : String) :
    entityNodes (addEdge g u v r) = entityNodes g := by
  have h1 : entityNodes (addEdge g u v r) = entityNodes (ensureNode (ensureNode g u) v) := by
    unfold entityNodes
    rw [addEdge_nodes]
  rw [h1, entityNodes_ensureNode, entityNodes_ensureNode]

lemma nodup_addEdge (g : Graph) (u v r : String) (hn : (graphKeys g).Nodup) :
    (graphKeys (addEdge g u v r)).Nodup := by
  have h1 : graphKeys (addEdge g u v r) = graphKeys (ensureNode (ensureNode g u) v) := by
    unfold graphKeys
    rw [addEdge_nodes]
  rw [h1]
  exact nodup_ensureNode _ v (nodup_ensureNode g u hn)

lemma keys_addEdge_mono (g : Graph) (u v r : String) :
    ∀ k ∈ graphKeys g, k ∈ graphKeys (addEdge g u v r) := by
  intro k hk
  have h1 : graphKeys (addEdge g u v r) = graphKeys (ensureNode (ensureNode g u) v) := by
    unfold graphKeys
    rw [addEdge_nodes]
  rw [h1]
  exact keys_ensureNode_mono _ v _ (keys_ensureNode_mono g u k hk)

lemma nodup_addNode (g : Graph) (i : String) (d : NodeData) (hn : (graphKeys g).Nodup) :
    (graphKeys (addNode g i d)).Nodup := by
  rw [graphKeys_addNode]
  split
  next => exact hn
  next hni =>
    simp [List.nodup_append, hn]
    exact hni

lemma keys_addNode_mono (g : Graph) (i : String) (d : NodeData) :
    ∀ k ∈ graphKeys g, k ∈ graphKeys (addNode g i d) := by
  intro k hk
  rw [graphKeys_addNode]
  split
  next => exact hk
  next => exact List.mem_append_left _ hk

lemma keys_addNode_self (g : Graph) (i : String) (d : NodeData) :
    i ∈ graphKeys (addNode g i d) := by
  rw [graphKeys_addNode]
  split
  next h => exact h
  next h => exact List.mem_append_right _ (List.mem_singleton_self i)

lemma keys_addNode_mem (g : Graph) (i : String) (d : NodeData) (j : String)
    (hj : j ∈ graphKeys (addNode g i d)) : j ∈ graphKeys g ∨ j = i := by
  rw [graphKeys_addNode] at hj
  split at hj
  next => exact Or.inl hj
  next =>
    rcases List.mem_append.mp hj with h | h
    · exact Or.inl h
    · exact Or.inr (List.mem_singleton.mp h)

lemma hg_of_E (g : Graph) (entid : String) (ed : NodeData)
    (hE : entityNodes g = [(entid, ed)]) (i : String) (hi : i ≠ entid) :
    ∀ q ∈ g.nodes, q.1 = i → ¬ q.2.label = some "Entity" := by
  intro q hq hqi hlab
  have hqm : q ∈ entityNodes g := List.mem_filter.mpr ⟨hq, by simpa using hlab⟩
  rw [hE] at hqm
  have hq2 := List.mem_singleton.mp hqm
  apply hi
  rw [← hqi, hq2]

lemma entid_mem_keys (g : Graph) (entid : String) (ed : NodeData)
    (hE : entityNodes g = [(entid, ed)]) : entid ∈ graphKeys g := by
  have hmem : (entid, ed) ∈ entityNodes g := by
    rw [hE]
    exact List.mem_singleton_self _
  exact List.mem_map_of_mem Prod.fst (List.mem_filter.mp hmem).1

lemma entid_mem_nodes (g : Graph) (entid : String) (ed : NodeData)
    (hE : entityNodes g = [(entid, ed)]) : (entid, ed) ∈ g.nodes := by
  have hmem : (entid, ed) ∈ entityNodes g := by
    rw [hE]
    exact List.mem_singleton_self _
  exact (List.mem_filter.mp hmem).1

/-- Preservation of the single-entity invariant by an `addNode` of a
non-entity node under a fresh key and by an `addEdge`. -/
lemma EN_pres_addNode (g : Graph) (i : String) (d : NodeData) (entid : String) (ed : NodeData)
    (hE : entityNodes g = [(entid, ed)]) (hN : (graphKeys g).Nodup)
    (hi : i ≠ entid) (hd : ¬ d.label = some "Entity") :
    entityNodes (addNode g i d) = [(entid, ed)] ∧ (graphKeys (addNode g i d)).Nodup :=
  ⟨(entityNodes_addNode g i d hd (hg_of_E g entid ed hE i hi)).trans hE, nodup_addNode g i d hN⟩

lemma EN_pres_addEdge (g : Graph) (u v r : String) (entid : String) (ed : NodeData)
    (hE : entityNodes g = [(entid, ed)]) (hN : (graphKeys g).Nodup) :
    entityNodes (addEdge g u v r) = [(entid, ed)] ∧ (graphKeys (addEdge g u v r)).Nodup :=
  ⟨(entityNodes_addEdge g u v r).trans hE, nodup_addEdge g u v r hN⟩

lemma tableFragsAux_id (dn src di : String) (p : Nat) :
    ∀ (table : List (List (Option (List Char)))) (r : Nat),
      ∀ f ∈ tableFragsAux dn src di p r table, ∃ pl, f.id = make_id "TBL" pl := by
  intro table
  induction table with
  | nil => intro r f hf; simp [tableFragsAux] at hf
  | cons row rest ih =>
    intro r f hf
    simp only [tableFragsAux] at hf
    split at hf
    · rcases List.mem_cons.mp hf with rfl | hf
      · exact ⟨_, rfl⟩
      · exact ih (r + 1) f hf
    · exact ih (r + 1) f hf

lemma tableRowsAux_id (dn src di : String) :
    ∀ (pages : List (List (List (List (Option (List Char)))))) (p : Nat),
      ∀ f ∈ tableRowsAux dn src di p pages, ∃ pl, f.id = make_id "TBL" pl := by
  intro pages
  induction pages with
  | nil => intro p f hf; simp [tableRowsAux] at hf
  | cons page rest ih =>
    intro p f hf
    simp only [tableRowsAux] at hf
    rcases List.mem_append.mp hf with hf | hf
    · obtain ⟨table, _, hft⟩ := List.mem_flatMap.mp hf
      exact tableFragsAux_id dn src di p table 0 f hft
    · exact ih (p + 1) f hf

lemma paragraph_chunks_id (dn src di : String) (ps : List (List Char)) :
    ∀ f ∈ paragraph_chunks dn src di ps, ∃ pl, f.id = make_id "PCH" pl := by
  intro f hf
  obtain ⟨pr, _, hfe⟩ := List.mem_map.mp hf
  rw [← hfe]
  exact ⟨_, rfl⟩

lemma head_TBL : ("TBL" : String).data.head? = some 'T' := rfl
lemma head_ENT : ("ENT" : String).data.head? = some 'E' := rfl
lemma head_DOC : ("DOC" : String).data.head? = some 'D' := rfl
lemma head_PCH : ("PCH" : String).data.head? = some 'P' := rfl
lemma head_LIT : ("LIT" : String).data.head? = some 'L' := rfl

/-- The single-entity invariant, packaged for chaining. -/
lemma ENinv_addNode (entid : String) (ed : NodeData) (g : Graph) (i : String) (d : NodeData)
    (hi : i ≠ entid) (hd : ¬ d.label = some "Entity")
    (h : entityNodes g = [(entid, ed)] ∧ (graphKeys g).Nodup) :
    entityNodes (addNode g i d) = [(entid, ed)] ∧ (graphKeys (addNode g i d)).Nodup :=
  EN_pres_addNode g i d entid ed h.1 h.2 hi hd

lemma ENinv_addEdge (entid : String) (ed : NodeData) (g : Graph) (u v r : String)
    (h : entityNodes g = [(entid, ed)] ∧ (graphKeys g).Nodup) :
    entityNodes (addEdge g u v r) = [(entid, ed)] ∧ (graphKeys (addEdge g u v r)).Nodup :=
  EN_pres_addEdge g u v r entid ed h.1 h.2

set_option maxHeartbeats 1000000 in
lemma rowStep_pres (doc_id : String) (eo : Option String) (entid : String) (ed : NodeData)
    (acc : Graph × List LineItem) (rc : Frag)
    (hrcne : rc.id ≠ entid)
    (hlidne : ∀ pg ds ex, line_item_id doc_id pg ds ex ≠ entid)
    (h : entityNodes acc.1 = [(entid, ed)] ∧ (graphKeys acc.1).Nodup) :
    entityNodes (buildRowStep doc_id eo acc rc).1 = [(entid, ed)] ∧
      (graphKeys (buildRowStep doc_id eo acc rc).1).Nodup := by
  unfold buildRowStep
  dsimp only
  cases hext : rowExt ((splitOnChar '|' rc.text).map pyStrip) with
  | none =>
    dsimp only
    exact ENinv_addEdge entid ed _ _ _ _
      (ENinv_addNode entid ed _ _ _ hrcne (by simp) h)
  | some x =>
    cases eo with
    | some e =>
      dsimp only
      exact ENinv_addEdge entid ed _ _ _ _
        (ENinv_addEdge entid ed _ _ _ _
          (ENinv_addNode entid ed _ _ _ (hlidne _ _ _) (by simp)
            (ENinv_addEdge entid ed _ _ _ _
              (ENinv_addNode entid ed _ _ _ hrcne (by simp) h))))
    | none =>
      dsimp only
      exact ENinv_addEdge entid ed _ _ _ _
        (ENinv_addNode entid ed _ _ _ (hlidne _ _ _) (by simp)
          (ENinv_addEdge entid ed _ _ _ _
            (ENinv_addNode entid ed _ _ _ hrcne (by simp) h)))

lemma rowFold_pres (doc_id : String) (eo : Option String) (entid : String) (ed : NodeData)
    (pv : Payload) (hent : entid = make_id "ENT" pv) :
    ∀ (rcs : List Frag) (acc : Graph × List LineItem),
      entityNodes acc.1 = [(entid, ed)] → (graphKeys acc.1).Nodup →
      (∀ rc ∈ rcs, ∃ pl, rc.id = make_id "TBL" pl) →
      entityNodes (rcs.foldl (buildRowStep doc_id eo) acc).1 = [(entid, ed)] ∧
        (graphKeys (rcs.foldl (buildRowStep doc_id eo) acc).1).Nodup := by
  intro rcs
  induction rcs with
  | nil => intro acc hE hN _; exact ⟨hE, hN⟩
  | cons rc rest ih =>
    intro acc hE hN hids
    obtain ⟨pl, hpl⟩ := hids rc (List.mem_cons_self rc rest)
    have hrcne : rc.id ≠ entid := by
      rw [hpl, hent]
      exact make_id_ne "TBL" "ENT" pl pv 'T' 'E' head_TBL head_ENT (by decide)
    have hlidne : ∀ pg ds ex, line_item_id doc_id pg ds ex ≠ entid := by
      intro pg ds ex
      rw [hent]
      exact make_id_ne "LIT" "ENT" _ pv 'L' 'E' head_LIT head_ENT (by decide)
    rw [List.foldl_cons]
    obtain ⟨hE1, hN1⟩ := rowStep_pres doc_id eo entid ed acc rc hrcne hlidne ⟨hE, hN⟩
    exact ih _ hE1 hN1 fun x hx => hids x (List.mem_cons_of_mem rc hx)

lemma parStep_pres (doc_id : String) (eo : Option String) (entid : String) (ed : NodeData)
    (g : Graph) (pc : Frag) (hpcne : pc.id ≠ entid)
    (h : entityNodes g = [(entid, ed)] ∧ (graphKeys g).Nodup) :
    entityNodes (buildParStep doc_id eo g pc) = [(entid, ed)] ∧
      (graphKeys (buildParStep doc_id eo g pc)).Nodup := by
  unfold buildParStep
  dsimp only
  cases eo with
  | some e =>
    exact ENinv_addEdge entid ed _ _ _ _
      (ENinv_addEdge entid ed _ _ _ _
        (ENinv_addNode entid ed _ _ _ hpcne (by simp) h))
  | none =>
    exact ENinv_addEdge entid ed _ _ _ _
      (ENinv_addNode entid ed _ _ _ hpcne (by simp) h)

lemma parFold_pres (doc_id : String) (eo : Option String) (entid : String) (ed : NodeData)
    (pv : Payload) (hent : entid = make_id "ENT" pv) :
    ∀ (pcs : List Frag) (g : Graph),
      entityNodes g = [(entid, ed)] → (graphKeys g).Nodup →
      (∀ pc ∈ pcs, ∃ pl, pc.id = make_id "PCH" pl) →
      entityNodes (pcs.foldl (buildParStep doc_id eo) g) = [(entid, ed)] ∧
        (graphKeys (pcs.foldl (buildParStep doc_id eo) g)).Nodup := by
  intro pcs
  induction pcs with
  | nil => intro g hE hN _; exact ⟨hE, hN⟩
  | cons pc rest ih =>
    intro g hE hN hids
    obtain ⟨pl, hpl⟩ := hids pc (List.mem_cons_self pc rest)
    have hpcne : pc.id ≠ entid := by
      rw [hpl, hent]
      exact make_id_ne "PCH" "ENT" pl pv 'P' 'E' head_PCH head_ENT (by decide)
    rw [List.foldl_cons]
    obtain ⟨hE1, hN1⟩ := parStep_pres doc_id eo entid ed g pc hpcne ⟨hE, hN⟩
    exact ih _ hE1 hN1 fun x hx => hids x (List.mem_cons_of_mem pc hx)

lemma keys_foldAddNode_mono :
    ∀ (l : List (String × NodeData)) (acc : Graph) (k : String),
      k ∈ graphKeys acc → k ∈ graphKeys (l.foldl (fun a p => addNode a p.1 p.2) acc) := by
  intro l
  induction l with
  | nil => intro acc k hk; exact hk
  | cons q rest ih =>
    intro acc k hk
    rw [List.foldl_cons]
    exact ih _ k (keys_addNode_mono acc q.1 q.2 k hk)

lemma composeNodesFold (entid : String) (ed : NodeData) (hed : ed.label = some "Entity") :
    ∀ (l : List (String × NodeData)) (acc : Graph),
      (graphKeys acc).Nodup →
      (entid ∈ graphKeys acc → entityNodes acc = [(entid, ed)]) →
      (entid ∉ graphKeys acc → entityNodes acc = []) →
      (∀ q ∈ l, (q.1 = entid → q.2 = ed) ∧ (q.2.label = some "Entity" → q.1 = entid)) →
      (graphKeys (l.foldl (fun a p => addNode a p.1 p.2) acc)).Nodup ∧
        (entid ∈ graphKeys (l.foldl (fun a p => addNode a p.1 p.2) acc) →
          entityNodes (l.foldl (fun a p => addNode a p.1 p.2) acc) = [(entid, ed)]) ∧
        (entid ∉ graphKeys (l.foldl (fun a p => addNode a p.1 p.2) acc) →
          entityNodes (l.foldl (fun a p => addNode a p.1 p.2) acc) = []) ∧
        (∀ q ∈ l, q.1 ∈ graphKeys (l.foldl (fun a p => addNode a p.1 p.2) acc)) := by
  intro l
  induction l with
  | nil =>
    intro acc hN h1 h2 _
    exact ⟨hN, h1, h2, by simp⟩
  | cons q rest ih =>
    intro acc hN h1 h2 hl
    obtain ⟨hq1, hq2⟩ := hl q (List.mem_cons_self q rest)
    rw [List.foldl_cons]
    have step : (graphKeys (addNode acc q.1 q.2)).Nodup ∧
        (entid ∈ graphKeys (addNode acc q.1 q.2) →
          entityNodes (addNode acc q.1 q.2) = [(entid, ed)]) ∧
        (entid ∉ graphKeys (addNode acc q.1 q.2) →
          entityNodes (addNode acc q.1 q.2) = []) := by
      by_cases hqe : q.1 = entid
      · have hqd : q.2 = ed := hq1 hqe
        by_cases hin : entid ∈ graphKeys acc
        · have hE := h1 hin
          have heq : addNode acc q.1 q.2 = acc := by
            rw [hqe, hqd]
            exact addNode_present acc entid ed hN (entid_mem_nodes acc entid ed hE)
              (mergeData_self ed)
          rw [heq]
          exact ⟨hN, h1, h2⟩
        · have hE0 := h2 hin
          have hqin : q.1 ∉ graphKeys acc := by rwa [hqe]
          have hnodes := entityNodes_addNode_entity acc q.1 q.2 hqin
          refine ⟨?_, ?_, ?_⟩
          · rw [graphKeys_addNode, if_neg hqin]
            simp [List.nodup_append, hN]
            exact hqin
          · intro _
            unfold entityNodes
            rw [hnodes, List.filter_append]
            unfold entityNodes at hE0
            rw [hE0]
            have hqlab : (q.2.label == some "Entity") = true := by
              rw [hqd, hed]
              exact beq_self_eq_true _
            simp [List.filter_cons, hqlab, hqe, hqd, hed]
          · intro hnot
            exact absurd (hqe ▸ keys_addNode_self acc q.1 q.2) hnot
      · have hd : ¬ q.2.label = some "Entity" := fun hc => hqe (hq2 hc)
        refine ⟨nodup_addNode acc q.1 q.2 hN, ?_, ?_⟩
        · intro hin'
          have hin : entid ∈ graphKeys acc := by
            rcases keys_addNode_mem acc q.1 q.2 entid hin' with hk | hk
            · exact hk
            · exact absurd hk.symm hqe
          have hE := h1 hin
          rw [entityNodes_addNode acc q.1 q.2 hd (hg_of_E acc entid ed hE q.1 hqe)]
          exact hE
        · intro hnin'
          have hnin : entid ∉ graphKeys acc :=
            fun hc => hnin' (keys_addNode_mono acc q.1 q.2 entid hc)
          have hE0 := h2 hnin
          have hg : ∀ p ∈ acc.nodes, p.1 = q.1 → ¬ p.2.label = some "Entity" := by
            intro p hp _ hlab
            have hpm : p ∈ entityNodes acc := List.mem_filter.mpr ⟨hp, by simpa using hlab⟩
            rw [hE0] at hpm
            simp at hpm
          rw [entityNodes_addNode acc q.1 q.2 hd hg]
          exact hE0
    obtain ⟨sN, s1, s2⟩ := step
    obtain ⟨rN, r1, r2, rl⟩ :=
      ih (addNode acc q.1 q.2) sN s1 s2 (fun x hx => hl x (List.mem_cons_of_mem q hx))
    refine ⟨rN, r1, r2, ?_⟩
    · intro x hx
      rcases List.mem_cons.mp hx with e | hx
      · rw [e]
        exact keys_foldAddNode_mono rest (addNode acc q.1 q.2) q.1
          (keys_addNode_self acc q.1 q.2)
      · exact rl x hx

lemma composeEdgesFold (entid : String) (ed : NodeData) :
    ∀ (es : List Edge) (acc : Graph),
      (graphKeys acc).Nodup → entityNodes acc = [(entid, ed)] →
      (graphKeys (es.foldl (fun a e => addEdge a e.src e.tgt e.rel) acc)).Nodup ∧
        entityNodes (es.foldl (fun a e => addEdge a e.src e.tgt e.rel) acc) = [(entid, ed)] := by
  intro es
  induction es with
  | nil => intro acc hN hE; exact ⟨hN, hE⟩
  | cons e rest ih =>
    intro acc hN hE
    rw [List.foldl_cons]
    exact ih _ (nodup_addEdge acc e.src e.tgt e.rel hN)
      ((entityNodes_addEdge acc e.src e.tgt e.rel).trans hE)

/-- `nx.compose` preserves the single-entity invariant when the second graph
satisfies it, whether or not the first already contains the entity. -/
lemma compose_pres (acc h : Graph) (entid : String) (ed : NodeData)
    (hed : ed.label = some "Entity")
    (haccN : (graphKeys acc).Nodup)
    (hacc1 : entid ∈ graphKeys acc → entityNodes acc = [(entid, ed)])
    (hacc2 : entid ∉ graphKeys acc → entityNodes acc = [])
    (hhN : (graphKeys h).Nodup) (hhE : entityNodes h = [(entid, ed)]) :
    (graphKeys (compose acc h)).Nodup ∧ entityNodes (compose acc h) = [(entid, ed)] := by
  unfold compose
  dsimp only
  have hl : ∀ q ∈ h.nodes, (q.1 = entid → q.2 = ed) ∧ (q.2.label = some "Entity" → q.1 = entid) := by
    intro q hq
    constructor
    · intro hq1
      have heq : q = (entid, ed) :=
        assoc_unique h.nodes hhN q hq (entid, ed) (entid_mem_nodes h entid ed hhE) hq1
      rw [heq]
    · intro hlab
      have hm : q ∈ entityNodes h := List.mem_filter.mpr ⟨hq, by simpa using hlab⟩
      rw [hhE] at hm
      rw [List.mem_singleton.mp hm]
  obtain ⟨rN, r1, _, rl⟩ := composeNodesFold entid ed hed h.nodes acc haccN hacc1 hacc2 hl
  have hin : entid ∈ graphKeys (h.nodes.foldl (fun a p => addNode a p.1 p.2) acc) :=
    rl (entid, ed) (entid_mem_nodes h entid ed hhE)
  exact composeEdgesFold entid ed h.edges _ rN (r1 hin)

lemma build_base_entity (d : RawDoc) (v : List Char) :
    entityNodes (addEdge (addNode (addNode emptyGraph (doc_id_of d)
          { label := some "Document", docname := some d.name, path := some d.path })
        (ent_id_of v) (entDataOf v)) (doc_id_of d) (ent_id_of v) "HAS_ENTITY") =
      [(ent_id_of v, entDataOf v)] ∧
    (graphKeys (addEdge (addNode (addNode emptyGraph (doc_id_of d)
          { label := some "Document", docname := some d.name, path := some d.path })
        (ent_id_of v) (entDataOf v)) (doc_id_of d) (ent_id_of v) "HAS_ENTITY")).Nodup := by
  have hdocne : doc_id_of d ≠ ent_id_of v := by
    unfold doc_id_of ent_id_of
    exact make_id_ne "DOC" "ENT" _ _ 'D' 'E' head_DOC head_ENT (by decide)
  have hni : ent_id_of v ∉ graphKeys (addNode emptyGraph (doc_id_of d)
      { label := some "Document", docname := some d.name, path := some d.path }) := by
    show ent_id_of v ∉ [doc_id_of d]
    simp [hdocne.symm]
  have hnodes := entityNodes_addNode_entity (addNode emptyGraph (doc_id_of d)
      { label := some "Document", docname := some d.name, path := some d.path })
    (ent_id_of v) (entDataOf v) hni
  apply ENinv_addEdge
  constructor
  · unfold entityNodes
    rw [hnodes]
    show List.filter _ ([(doc_id_of d,
      { label := some "Document", docname := some d.name, path := some d.path })] ++
        [(ent_id_of v, entDataOf v)]) = _
    rw [List.filter_append]
    simp [List.filter_cons, entDataOf]
  · rw [graphKeys_addNode, if_neg hni]
    show ([doc_id_of d] ++ [ent_id_of v]).Nodup
    simp [hdocne]

set_option maxHeartbeats 2000000 in
/-- A document whose sniffed vendor is the non-empty name `v` contributes
exactly one `Entity` node, keyed by the content-derived id of `v`, to its
graph, whose node keys are duplicate-free. -/
lemma build_entity (d : RawDoc) (v : List Char)
    (h1 : sniff_vendor (fulltextOf d) = some v) (hv : v ≠ []) :
    entityNodes (build_graph_and_maps d).1 = [(ent_id_of v, entDataOf v)] ∧
      (graphKeys (build_graph_and_maps d).1).Nodup := by
  unfold fulltextOf at h1
  have hvf : v.isEmpty = false := by
    cases v
    · exact absurd rfl hv
    · rfl
  unfold build_graph_and_maps
  dsimp only
  rw [h1]
  dsimp only
  rw [hvf]
  simp only [Bool.false_eq_true, if_false]
  have hids_rcs : ∀ rc ∈ (if d.tablesOk then
      table_rows d.name d.path (doc_id_of d) d.pages else []),
      ∃ pl, rc.id = make_id "TBL" pl := by
    cases d.tablesOk with
    | false => simp
    | true =>
      simp only [if_true]
      unfold table_rows
      exact fun rc hrc => tableRowsAux_id d.name d.path (doc_id_of d) d.pages 1 rc hrc
  refine parFold_pres (doc_id_of d) (some (ent_id_of v)) (ent_id_of v) (entDataOf v)
    (Payload.dict [("type".data, JVal.jstr "Vendor".data), ("name".data, JVal.jstr v)]) rfl
    _ _ ?_ ?_ ?_
  · refine (rowFold_pres (doc_id_of d) (some (ent_id_of v)) (ent_id_of v) (entDataOf v)
      (Payload.dict [("type".data, JVal.jstr "Vendor".data), ("name".data, JVal.jstr v)]) rfl
      _ _ ?_ ?_ ?_).1
    · exact (build_base_entity d v).1
    · exact (build_base_entity d v).2
    · exact hids_rcs
  · refine (rowFold_pres (doc_id_of d) (some (ent_id_of v)) (ent_id_of v) (entDataOf v)
      (Payload.dict [("type".data, JVal.jstr "Vendor".data), ("name".data, JVal.jstr v)]) rfl
      _ _ ?_ ?_ ?_).2
    · exact (build_base_entity d v).1
    · exact (build_base_entity d v).2
    · exact hids_rcs
  · exact fun pc hpc => paragraph_chunks_id d.name d.path (doc_id_of d) d.paragraphs pc hpc

/-- C3 (amended): two documents whose sniffed vendor names are the same
exact string yield exactly one `Entity` node in the merged corpus graph,
keyed by the id derived from (type, name). -/
theorem entity_dedup_exact_name (d1 d2 : RawDoc) (v : List Char)
    (h1 : sniff_vendor (fulltextOf d1) = some v)
    (h2 : sniff_vendor (fulltextOf d2) = some v) (hv : v ≠ []) :
    (entityNodes (mergeDocs [d1, d2])).map Prod.fst = [ent_id_of v] := by
  obtain ⟨hE1, hN1⟩ := build_entity d1 v h1 hv
  obtain ⟨hE2, hN2⟩ := build_entity d2 v h2 hv
  have hc1 := compose_pres emptyGraph (build_graph_and_maps d1).1 (ent_id_of v) (entDataOf v)
    rfl (by simp [graphKeys, emptyGraph])
    (fun hmem => absurd hmem (by simp [graphKeys, emptyGraph]))
    (fun _ => rfl) hN1 hE1
  have hc2 := compose_pres _ (build_graph_and_maps d2).1 (ent_id_of v) (entDataOf v)
    rfl hc1.1 (fun _ => hc1.2)
    (fun hnin => absurd (entid_mem_keys _ _ _ hc1.2) hnin) hN2 hE2
  have hm : mergeDocs [d1, d2] =
      compose (compose emptyGraph (build_graph_and_maps d1).1) (build_graph_and_maps d2).1 := rfl
  rw [hm, hc2.2]
  rfl

set_option maxRecDepth 100000 in
/-- C3 (counterexample): two documents whose sniffed vendor names agree only
modulo case produce two distinct `Entity` nodes in the merged graph, because
the entity id hashes the vendor string as sniffed, with no case
normalization. -/
theorem entity_dedup_case_cex :
    pyLower "ACME Corp".data = pyLower "acme corp".data ∧
    (build_graph_and_maps docA).2.1.vendor = some "ACME Corp".data ∧
    (build_graph_and_maps docB).2.1.vendor = some "acme corp".data ∧
    (entityNodes (mergeDocs [docA, docB])).length = 2 := by
  refine ⟨by decide, by decide, by decide, by decide⟩

set_option maxRecDepth 100000 in
/-- Witness for the amended C3 at two concrete documents sniffing the
identical vendor string. -/
theorem entity_dedup_exact_name_witness :
    sniff_vendor (fulltextOf docA) = some "ACME Corp".data ∧
    sniff_vendor (fulltextOf docB2) = some "ACME Corp".data ∧
    "ACME Corp".data ≠ [] ∧
    (entityNodes (mergeDocs [docA, docB2])).map Prod.fst = [ent_id_of "ACME Corp".data] :=
  ⟨by decide, by decide, by decide,
    entity_dedup_exact_name docA docB2 "ACME Corp".data (by decide) (by decide) (by decide)⟩

set_option maxRecDepth 4000 in
/-- Witness for C10 at two 301-character texts differing only in their last
character. -/
theorem paragraph_chunk_id_first300_witness :
    (List.replicate 300 'a' ++ ['X']).take 300 = (List.replicate 300 'a' ++ ['Y']).take 300 ∧
    paragraph_chunk_id "DOC:d" 0 (List.replicate 300 'a' ++ ['X']) =
      paragraph_chunk_id "DOC:d" 0 (List.replicate 300 'a' ++ ['Y']) :=
  ⟨by decide, paragraph_chunk_id_first300 "DOC:d" 0 _ _ (by decide)⟩

end SML
